import Mathlib

/-!
Shallow embedding of the CHIP-8 interpreter core from `src/chip8.rs`
(novoselov-ab/chip8-rust), together with theorems settling the frozen
claims about its specification.

Modelling conventions:
* Machine integers (`u8`, `u16`) are `Nat` reduced modulo `2^8` / `2^16`
  exactly where the Rust types force wraparound; reads of `u8` cells go
  through an explicit `% 256`.
* Fallible operations (slice indexing out of bounds, `u8` subtraction
  underflow, both of which panic in Rust) return `Option`, with `none`
  for the panicking branch.
* The `f32` accumulator `total_dt` is modelled as an exact rational.
* The thread-local RNG of the `Cxnn` opcode is passed in as an explicit
  `rand` byte oracle; the ROM file contents of `load_rom` are passed as a
  byte list (file I/O happens outside the interpreter core).
-/

/-- chip8 original screen size (`SCREEN_SIZE` in chip8.rs). -/
def SCREEN_SIZE : Nat × Nat := (64, 32)

/-- predefined font sprites (`FONT_DATA` in chip8.rs). -/
def FONT_DATA : List Nat :=
  [0xF0, 0x90, 0x90, 0x90, 0xF0,
   0x20, 0x60, 0x20, 0x20, 0x70,
   0xF0, 0x10, 0xF0, 0x80, 0xF0,
   0xF0, 0x10, 0xF0, 0x10, 0xF0,
   0x90, 0x90, 0xF0, 0x10, 0x10,
   0xF0, 0x80, 0xF0, 0x10, 0xF0,
   0xF0, 0x80, 0xF0, 0x90, 0xF0,
   0xF0, 0x10, 0x20, 0x40, 0x40,
   0xF0, 0x90, 0xF0, 0x90, 0xF0,
   0xF0, 0x90, 0xF0, 0x10, 0xF0,
   0xF0, 0x90, 0xF0, 0x90, 0x90,
   0xE0, 0x90, 0xE0, 0x90, 0xE0,
   0xF0, 0x80, 0x80, 0x80, 0xF0,
   0xE0, 0x90, 0x90, 0x90, 0xE0,
   0xF0, 0x80, 0xF0, 0x80, 0xF0,
   0xF0, 0x80, 0xF0, 0x80, 0x80]

/-- Total RAM size (`MEMORY_SIZE` in chip8.rs; note: `65535`, not `2^16`). -/
def MEMORY_SIZE : Nat := 65535

/-- Screen buffer (`struct Screen`). The `[u8; 64*32]` row-major buffer is
modelled as a function from flat index to cell value. -/
structure Screen where
  buffer : Nat → Nat
  dirty : Bool

/-- `Screen::default()`: zeroed buffer, dirty flag set. -/
def Screen.default : Screen := ⟨fun _ => 0, true⟩

/-- `Screen::clear`. -/
def Screen.clear (_s : Screen) : Screen := Screen.default

/-- `Screen::set_pixel`: stores `v as u8` at the row-major index, sets dirty. -/
def Screen.set_pixel (s : Screen) (x y : Nat) (v : Bool) : Screen :=
  { buffer := fun idx => if idx = x + y * SCREEN_SIZE.1 then (if v then 1 else 0) else s.buffer idx,
    dirty := true }

/-- `Screen::get_pixel`: the cell equals `1`. -/
def Screen.get_pixel (s : Screen) (x y : Nat) : Bool :=
  decide (s.buffer (x + y * SCREEN_SIZE.1) = 1)

/-- one step of the inner bit loop of `Screen::draw_sprite`: composite bit `i`
(MSB first) of row byte `row`, which is sprite row `j`, into the accumulated
screen/collision pair. -/
def drawBitStep (x y j row : Nat) (acc : Screen × Bool) (i : Nat) : Screen × Bool :=
  let new_value := row / 2 ^ (7 - i) % 2
  if new_value = 1 then
    let xi := (x + i) % SCREEN_SIZE.1
    let yj := (y + j) % SCREEN_SIZE.2
    let old_value := acc.1.get_pixel xi yj
    (acc.1.set_pixel xi yj (xor (decide (new_value = 1)) old_value),
     if old_value then true else acc.2)
  else acc

/-- the inner `for i in 0..8` loop of `Screen::draw_sprite`. -/
def drawRow (x y j row : Nat) (acc : Screen × Bool) : Screen × Bool :=
  (List.range 8).foldl (drawBitStep x y j row) acc

/-- the outer `for j in 0..rows` loop of `Screen::draw_sprite`, carrying the
current row index `j`. -/
def drawRows (x y : Nat) : Nat → List Nat → Screen × Bool → Screen × Bool
  | _, [], acc => acc
  | j, row :: rest, acc => drawRows x y (j + 1) rest (drawRow x y j row acc)

/-- `Screen::draw_sprite`: returns the updated screen and the collision flag. -/
def Screen.draw_sprite (s : Screen) (x y : Nat) (sprite : List Nat) : Screen × Bool :=
  drawRows x y 0 sprite (s, false)

/-- chip8 has 16 keys keypad (`Keypad::KEY_COUNT`). -/
def KEY_COUNT : Nat := 16

/-- chip8 keypad state (`struct Keypad`); the `[bool; 16]` array as a function. -/
structure Keypad where
  keys : Nat → Bool

/-- `Keypad::is_pressed`: direct array indexing, out of bounds for
`key ≥ KEY_COUNT` (a panic in Rust, `none` here). -/
def Keypad.is_pressed (k : Keypad) (key : Nat) : Option Bool :=
  if key < KEY_COUNT then some (k.keys key) else none

/-- `Keypad::get_pressed_key`: lowest pressed key index, if any. -/
def Keypad.get_pressed_key (k : Keypad) : Option Nat :=
  (List.range KEY_COUNT).find? (fun i => k.keys i)

/-- chip8 main emulator state (`struct Emulator`). -/
structure Emulator where
  halt : Bool
  screen : Screen
  keypad : Keypad
  memory : Nat → Nat
  code_len : Nat
  stack : List Nat
  rs : Nat → Nat
  ri : Nat
  pc : Nat
  delay : Nat
  total_dt : ℚ

/-- `Emulator::new()`: halted, `pc = 0x200`, zeroed RAM with the font data
copied over its first 80 bytes. -/
def Emulator.new : Emulator :=
  { halt := true
    screen := Screen.default
    keypad := ⟨fun _ => false⟩
    memory := fun a => FONT_DATA.getD a 0
    code_len := 0
    stack := []
    rs := fun _ => 0
    ri := 0
    pc := 0x200
    delay := 0
    total_dt := 0 }

/-- bounds-checked byte read from RAM: indexing past `MEMORY_SIZE` panics in
Rust; in-bounds cells are `u8`, hence the `% 256` view. -/
def readMem (m : Nat → Nat) (a : Nat) : Option Nat :=
  if a < MEMORY_SIZE then some (m a % 256) else none

/-- a `u8` register read (the register file stores bytes). -/
def getR (rs : Nat → Nat) (i : Nat) : Nat := rs i % 256

/-- a single register write. -/
def setR (rs : Nat → Nat) (i v : Nat) : Nat → Nat :=
  fun k => if k = i then v else rs k

/-- `Emulator::load_rom` with the ROM file contents passed in as bytes:
reset to the initial state, copy the contents to `0x200..`, clear `halt`. -/
def Emulator.load_rom (_e : Emulator) (contents : List Nat) : Emulator :=
  let e := Emulator.new
  { e with
    memory := fun a =>
      if 0x200 ≤ a ∧ a < 0x200 + contents.length then contents.getD (a - 0x200) 0
      else e.memory a
    code_len := contents.length
    halt := false }

/-- the `f32` constant `TIMER_PERIOD = 1.0 / 60.0`, modelled exactly. -/
def TIMER_PERIOD : ℚ := 1 / 60

/-- the `while self.total_dt > TIMER_PERIOD` loop of `Emulator::update_timer`:
subtract the period and decrement `delay` each iteration.  The loop body does
not re-check `delay > 0`, so `delay -= 1` can underflow the `u8` (a panic in a
debug build), which is the `none` branch here. -/
def timerLoop (t : ℚ) (d : Nat) : Option (ℚ × Nat) :=
  if h : TIMER_PERIOD < t then
    if d = 0 then none else timerLoop (t - TIMER_PERIOD) (d - 1)
  else some (t, d)
termination_by (⌈t * 60⌉).toNat
decreasing_by
  have h1 : (1 : ℚ) < t * 60 := by
    have : (1 : ℚ) / 60 < t := h
    nlinarith
  have h2 : (1 : ℤ) < ⌈t * 60⌉ := Int.lt_ceil.mpr (by exact_mod_cast h1)
  have h3 : (t - TIMER_PERIOD) * 60 = t * 60 - 1 := by
    simp [TIMER_PERIOD]; ring
  have h4 : ⌈(t - TIMER_PERIOD) * 60⌉ = ⌈t * 60⌉ - 1 := by
    rw [h3]
    exact_mod_cast Int.ceil_sub_int (t * 60) 1
  omega

/-- `Emulator::update_timer(dt)`: if `delay > 0`, accumulate `dt` and run the
catch-up loop. -/
def Emulator.update_timer (e : Emulator) (dt : ℚ) : Option Emulator :=
  if 0 < e.delay then
    match timerLoop (e.total_dt + dt) e.delay with
    | none => none
    | some (t, d) => some { e with total_dt := t, delay := d }
  else some e

/-- `Emulator::execute_instruction`, with the random byte of the `Cxnn` opcode
passed in as `rand`.  The nibble-pattern `match` of the source is rendered as
the same first-match-wins cascade; `none` is any panicking branch (out of
bounds indexing). -/
def Emulator.execute_instruction (e : Emulator) (rand : Nat) : Option Emulator :=
  match readMem e.memory e.pc, readMem e.memory (e.pc + 1) with
  | some hi, some lo =>
    let opcode := hi * 256 + lo
    let n1 := opcode / 4096 % 16
    let n2 := opcode / 256 % 16
    let n3 := opcode / 16 % 16
    let n4 := opcode % 16
    let nnn := opcode % 4096
    let nn := opcode % 256
    let x := n2
    let y := n3
    let n := n4
    let e := { e with pc := (e.pc + 2) % 65536 }
    if n1 = 0 ∧ x = 0 ∧ y = 0xE ∧ n4 = 0 then
      some { e with screen := e.screen.clear }
    else if n1 = 0 ∧ x = 0 ∧ y = 0xE ∧ n4 = 0xE then
      match e.stack with
      | [] => some e
      | adr :: rest => some { e with pc := adr, stack := rest }
    else if n1 = 0 then
      some e
    else if n1 = 1 then
      some { e with pc := nnn }
    else if n1 = 2 then
      some { e with stack := e.pc :: e.stack, pc := nnn }
    else if n1 = 3 then
      some (if getR e.rs x = nn then { e with pc := (e.pc + 2) % 65536 } else e)
    else if n1 = 4 then
      some (if getR e.rs x ≠ nn then { e with pc := (e.pc + 2) % 65536 } else e)
    else if n1 = 5 ∧ n4 = 0 then
      some (if getR e.rs x = getR e.rs y then { e with pc := (e.pc + 2) % 65536 } else e)
    else if n1 = 6 then
      some { e with rs := setR e.rs x nn }
    else if n1 = 7 then
      some { e with rs := setR e.rs x ((getR e.rs x + nn) % 256) }
    else if n1 = 8 ∧ n4 = 0 then
      some { e with rs := setR e.rs x (getR e.rs y) }
    else if n1 = 8 ∧ n4 = 1 then
      some { e with rs := setR e.rs x (Nat.lor (getR e.rs x) (getR e.rs y)) }
    else if n1 = 8 ∧ n4 = 2 then
      some { e with rs := setR e.rs x (Nat.land (getR e.rs x) (getR e.rs y)) }
    else if n1 = 8 ∧ n4 = 3 then
      some { e with rs := setR e.rs x (Nat.xor (getR e.rs x) (getR e.rs y)) }
    else if n1 = 8 ∧ n4 = 4 then
      let res := (getR e.rs x + getR e.rs y) % 256
      let overflow := 256 ≤ getR e.rs x + getR e.rs y
      some { e with rs := setR (setR e.rs 0xF (if overflow then 1 else 0)) x res }
    else if n1 = 8 ∧ n4 = 5 then
      let res := (getR e.rs x + 256 - getR e.rs y) % 256
      let overflow := getR e.rs x < getR e.rs y
      some { e with rs := setR (setR e.rs 0xF (if overflow then 0 else 1)) x res }
    else if n1 = 8 ∧ n4 = 6 then
      let rs1 := setR e.rs 0xF (getR e.rs x % 2)
      some { e with rs := setR rs1 x (getR rs1 x / 2) }
    else if n1 = 8 ∧ n4 = 7 then
      let res := (getR e.rs y + 256 - getR e.rs x) % 256
      let overflow := getR e.rs y < getR e.rs x
      some { e with rs := setR (setR e.rs 0xF (if overflow then 0 else 1)) x res }
    else if n1 = 8 ∧ n4 = 0xE then
      let rs1 := setR e.rs 0xF (getR e.rs x / 128)
      some { e with rs := setR rs1 x (getR rs1 x * 2 % 256) }
    else if n1 = 9 ∧ n4 = 0 then
      some (if getR e.rs x ≠ getR e.rs y then { e with pc := (e.pc + 2) % 65536 } else e)
    else if n1 = 0xA then
      some { e with ri := nnn }
    else if n1 = 0xB then
      some { e with pc := nnn + getR e.rs 0 }
    else if n1 = 0xC then
      some { e with rs := setR e.rs x (Nat.land (rand % 256) nn) }
    else if n1 = 0xD then
      if e.ri + n ≤ MEMORY_SIZE then
        let sprite := (List.range n).map (fun k => e.memory (e.ri + k) % 256)
        let r := e.screen.draw_sprite (getR e.rs x) (getR e.rs y) sprite
        some { e with screen := r.1, rs := setR e.rs 0xF (if r.2 then 1 else 0) }
      else none
    else if n1 = 0xE ∧ y = 9 ∧ n4 = 0xE then
      match e.keypad.is_pressed (getR e.rs x) with
      | none => none
      | some b => some (if b then { e with pc := (e.pc + 2) % 65536 } else e)
    else if n1 = 0xE ∧ y = 0xA ∧ n4 = 1 then
      match e.keypad.is_pressed (getR e.rs x) with
      | none => none
      | some b => some (if b then e else { e with pc := (e.pc + 2) % 65536 })
    else if n1 = 0xF ∧ y = 0 ∧ n4 = 7 then
      some { e with rs := setR e.rs x (e.delay % 256) }
    else if n1 = 0xF ∧ y = 0 ∧ n4 = 0xA then
      match e.keypad.get_pressed_key with
      | some key => some { e with rs := setR e.rs x key }
      | none => some { e with pc := e.pc - 2 }
    else if n1 = 0xF ∧ y = 1 ∧ n4 = 5 then
      some { e with delay := getR e.rs x }
    else if n1 = 0xF ∧ y = 1 ∧ n4 = 8 then
      some e
    else if n1 = 0xF ∧ y = 1 ∧ n4 = 0xE then
      some { e with ri := (e.ri + getR e.rs x) % 65536 }
    else if n1 = 0xF ∧ y = 2 ∧ n4 = 9 then
      some { e with ri := getR e.rs x * 5 }
    else if n1 = 0xF ∧ y = 3 ∧ n4 = 3 then
      if e.ri + 2 < MEMORY_SIZE then
        let v := getR e.rs x
        some { e with memory := fun a =>
          if a = e.ri then v / 100
          else if a = e.ri + 1 then v / 10 % 10
          else if a = e.ri + 2 then v % 10
          else e.memory a }
      else none
    else if n1 = 0xF ∧ y = 5 ∧ n4 = 5 then
      if e.ri + x + 1 ≤ MEMORY_SIZE then
        some { e with
          memory := fun a =>
            if e.ri ≤ a ∧ a < e.ri + x + 1 then getR e.rs (a - e.ri) else e.memory a,
          ri := e.ri + x + 1 }
      else none
    else if n1 = 0xF ∧ y = 5 ∧ n4 = 6 then
      if e.ri + x + 1 ≤ MEMORY_SIZE then
        some { e with
          rs := fun k => if k < x + 1 then e.memory (e.ri + k) % 256 else e.rs k,
          ri := e.ri + x + 1 }
      else none
    else
      some e
  | _, _ => none

/-- `Emulator::update(dt)`: when not halted, advance the timer, then execute
one instruction. -/
def Emulator.update (e : Emulator) (dt : ℚ) (rand : Nat) : Option Emulator :=
  if e.halt then some e
  else
    match e.update_timer dt with
    | none => none
    | some e1 => e1.execute_instruction rand

/-! ### Reasoning helpers for `Screen.draw_sprite` -/

/-- sprite bit `i` (MSB first) of a row byte. -/
def spriteBit (row i : Nat) : Nat := row / 2 ^ (7 - i) % 2

/-- flat buffer index targeted by sprite bit `(j, i)` drawn at `(x, y)`. -/
def tgtIdx (x y j i : Nat) : Nat := (x + i) % 64 + ((y + j) % 32) * 64

lemma tgtIdx_eq_iff {x y j j' i i' : Nat} :
    tgtIdx x y j i = tgtIdx x y j' i' ↔
      ((x + i) % 64 = (x + i') % 64 ∧ (y + j) % 32 = (y + j') % 32) := by
  unfold tgtIdx
  omega

lemma xmod_inj {x i i' : Nat} (hi : i < 8) (hi' : i' < 8)
    (h : (x + i) % 64 = (x + i') % 64) : i = i' := by
  omega

lemma ymod_ne {y j j' : Nat} (hlt : j < j') (hwin : j' - j < 32) :
    (y + j) % 32 ≠ (y + j') % 32 := by
  omega

lemma Screen.set_pixel_buffer (s : Screen) (q r : Nat) (v : Bool) (p : Nat) :
    (s.set_pixel q r v).buffer p =
      if p = q + r * 64 then (if v then 1 else 0) else s.buffer p := by
  simp [Screen.set_pixel, SCREEN_SIZE]

lemma Screen.get_pixel_eq (s : Screen) (q r : Nat) :
    s.get_pixel q r = decide (s.buffer (q + r * 64) = 1) := by
  simp [Screen.get_pixel, SCREEN_SIZE]

lemma drawBitStep_bit0 {x y j row i : Nat} {acc : Screen × Bool}
    (h : spriteBit row i ≠ 1) : drawBitStep x y j row acc i = acc := by
  unfold spriteBit at h
  simp [drawBitStep, h]

lemma drawBitStep_bit1 {x y j row i : Nat} {acc : Screen × Bool}
    (h : spriteBit row i = 1) :
    drawBitStep x y j row acc i =
      (acc.1.set_pixel ((x + i) % 64) ((y + j) % 32)
        (!acc.1.get_pixel ((x + i) % 64) ((y + j) % 32)),
       if acc.1.get_pixel ((x + i) % 64) ((y + j) % 32) then true else acc.2) := by
  unfold spriteBit at h
  simp [drawBitStep, h, SCREEN_SIZE]

lemma drawBitStep_preserve {x y j row a : Nat} {acc : Screen × Bool} {p : Nat}
    (h : spriteBit row a = 1 → tgtIdx x y j a ≠ p) :
    (drawBitStep x y j row acc a).1.buffer p = acc.1.buffer p := by
  by_cases hb : spriteBit row a = 1
  · rw [drawBitStep_bit1 hb]
    have hne : p ≠ (x + a) % 64 + ((y + j) % 32) * 64 := fun hp => (h hb) (by
      unfold tgtIdx
      exact hp.symm)
    simp [Screen.set_pixel_buffer, hne]
  · rw [drawBitStep_bit0 hb]

lemma foldBits_preserve {x y j row : Nat} (l : List Nat) (acc : Screen × Bool) (p : Nat)
    (h : ∀ i ∈ l, spriteBit row i = 1 → tgtIdx x y j i ≠ p) :
    (l.foldl (drawBitStep x y j row) acc).1.buffer p = acc.1.buffer p := by
  induction l generalizing acc with
  | nil => rfl
  | cons a rest ih =>
    simp only [List.foldl_cons]
    rw [ih _ (fun i hi hb => h i (List.mem_cons_of_mem _ hi) hb)]
    exact drawBitStep_preserve (h a (List.mem_cons_self _ _))

lemma foldBits_pixel_preserve {x y j row : Nat} (l : List Nat) (acc : Screen × Bool)
    (q r : Nat)
    (h : ∀ i ∈ l, spriteBit row i = 1 → tgtIdx x y j i ≠ q + r * 64) :
    (l.foldl (drawBitStep x y j row) acc).1.get_pixel q r = acc.1.get_pixel q r := by
  rw [Screen.get_pixel_eq, Screen.get_pixel_eq, foldBits_preserve l acc _ h]

lemma drawBitStep_pixel_preserve {x y j row a : Nat} {acc : Screen × Bool} {i : Nat}
    (hne : spriteBit row a = 1 → tgtIdx x y j a ≠ tgtIdx x y j i) :
    (drawBitStep x y j row acc a).1.get_pixel ((x + i) % 64) ((y + j) % 32) =
      acc.1.get_pixel ((x + i) % 64) ((y + j) % 32) := by
  rw [Screen.get_pixel_eq, Screen.get_pixel_eq]
  exact congrArg (fun n => decide (n = 1)) (drawBitStep_preserve hne)

lemma foldBits_target {x y j row : Nat} :
    ∀ (l : List Nat), (∀ a ∈ l, a < 8) → l.Pairwise (· ≠ ·) →
    ∀ (acc : Screen × Bool) (i : Nat), i ∈ l → spriteBit row i = 1 →
    (l.foldl (drawBitStep x y j row) acc).1.buffer (tgtIdx x y j i) =
      if acc.1.get_pixel ((x + i) % 64) ((y + j) % 32) then 0 else 1 := by
  intro l
  induction l with
  | nil => intro _ _ _ i hi; cases hi
  | cons a rest ih =>
    intro hmem hnd acc i hi hb
    simp only [List.foldl_cons]
    rcases List.mem_cons.mp hi with rfl | hi'
    · have hpres : ∀ b ∈ rest, spriteBit row b = 1 → tgtIdx x y j b ≠ tgtIdx x y j i := by
        intro b hbr _ heq
        have hbi : b = i :=
          xmod_inj (hmem b (List.mem_cons_of_mem _ hbr)) (hmem i (List.mem_cons_self _ _))
            (tgtIdx_eq_iff.mp heq).1
        exact ((List.pairwise_cons.mp hnd).1 b hbr) hbi.symm
      rw [foldBits_preserve rest _ _ hpres, drawBitStep_bit1 hb]
      have htgt : tgtIdx x y j i = (x + i) % 64 + ((y + j) % 32) * 64 := rfl
      rw [htgt, Screen.set_pixel_buffer, if_pos rfl]
      by_cases hold : acc.1.get_pixel ((x + i) % 64) ((y + j) % 32) <;> simp [hold]
    · have hne : spriteBit row a = 1 → tgtIdx x y j a ≠ tgtIdx x y j i := by
        intro _ heq
        have hai : a = i :=
          xmod_inj (hmem a (List.mem_cons_self _ _)) (hmem i (List.mem_cons_of_mem _ hi'))
            (tgtIdx_eq_iff.mp heq).1
        exact ((List.pairwise_cons.mp hnd).1 i hi') hai
      rw [ih (fun b hbr => hmem b (List.mem_cons_of_mem _ hbr)) (List.Pairwise.of_cons hnd)
        _ i hi' hb, drawBitStep_pixel_preserve hne]

lemma foldBits_coll {x y j row : Nat} :
    ∀ (l : List Nat), (∀ a ∈ l, a < 8) → l.Pairwise (· ≠ ·) →
    ∀ (acc : Screen × Bool),
    ((l.foldl (drawBitStep x y j row) acc).2 = true ↔
      (acc.2 = true ∨ ∃ i, i ∈ l ∧ spriteBit row i = 1 ∧
        acc.1.get_pixel ((x + i) % 64) ((y + j) % 32) = true)) := by
  intro l
  induction l with
  | nil => intro _ _ acc; simp
  | cons a rest ih =>
    intro hmem hnd acc
    simp only [List.foldl_cons]
    rw [ih (fun b hbr => hmem b (List.mem_cons_of_mem _ hbr)) (List.Pairwise.of_cons hnd)]
    have hpix : ∀ (v : Bool), ∀ i ∈ rest, spriteBit row i = 1 →
        (acc.1.set_pixel ((x + a) % 64) ((y + j) % 32) v).get_pixel
            ((x + i) % 64) ((y + j) % 32) =
          acc.1.get_pixel ((x + i) % 64) ((y + j) % 32) := by
      intro v i hir _
      rw [Screen.get_pixel_eq, Screen.get_pixel_eq, Screen.set_pixel_buffer]
      have hne : (x + i) % 64 + ((y + j) % 32) * 64 ≠ (x + a) % 64 + ((y + j) % 32) * 64 := by
        intro heq
        have hxi : (x + i) % 64 = (x + a) % 64 := by omega
        have hia : i = a :=
          xmod_inj (hmem i (List.mem_cons_of_mem _ hir)) (hmem a (List.mem_cons_self _ _)) hxi
        exact ((List.pairwise_cons.mp hnd).1 i hir) hia.symm
      rw [if_neg hne]
    by_cases hb : spriteBit row a = 1
    · rw [drawBitStep_bit1 hb]
      by_cases hold : acc.1.get_pixel ((x + a) % 64) ((y + j) % 32) = true
      · constructor
        · intro _
          exact Or.inr ⟨a, List.mem_cons_self _ _, hb, hold⟩
        · intro _
          left
          simp [hold]
      · rw [if_neg hold]
        constructor
        · rintro (hc | ⟨i, hir, hbi, hpi⟩)
          · exact Or.inl hc
          · refine Or.inr ⟨i, List.mem_cons_of_mem _ hir, hbi, ?_⟩
            rw [← hpix _ i hir hbi]
            exact hpi
        · rintro (hc | ⟨i, hic, hbi, hpi⟩)
          · exact Or.inl hc
          · rcases List.mem_cons.mp hic with rfl | hir
            · exact absurd hpi hold
            · exact Or.inr ⟨i, hir, hbi, (hpix _ i hir hbi).symm ▸ hpi⟩
    · rw [drawBitStep_bit0 hb]
      constructor
      · rintro (hc | ⟨i, hir, hbi, hpi⟩)
        · exact Or.inl hc
        · exact Or.inr ⟨i, List.mem_cons_of_mem _ hir, hbi, hpi⟩
      · rintro (hc | ⟨i, hic, hbi, hpi⟩)
        · exact Or.inl hc
        · rcases List.mem_cons.mp hic with rfl | hir
          · exact absurd hbi hb
          · exact Or.inr ⟨i, hir, hbi, hpi⟩

/-! ### Row-level corollaries (the inner loop is always `List.range 8`) -/

lemma drawRow_preserve {x y j row : Nat} (acc : Screen × Bool) (p : Nat)
    (h : ∀ i, i < 8 → spriteBit row i = 1 → tgtIdx x y j i ≠ p) :
    (drawRow x y j row acc).1.buffer p = acc.1.buffer p :=
  foldBits_preserve _ acc p (fun i hi hb => h i (List.mem_range.mp hi) hb)

lemma drawRow_pixel_preserve {x y j row : Nat} (acc : Screen × Bool) (q r : Nat)
    (h : ∀ i, i < 8 → spriteBit row i = 1 → tgtIdx x y j i ≠ q + r * 64) :
    (drawRow x y j row acc).1.get_pixel q r = acc.1.get_pixel q r :=
  foldBits_pixel_preserve _ acc q r (fun i hi hb => h i (List.mem_range.mp hi) hb)

lemma drawRow_target {x y j row : Nat} (acc : Screen × Bool) (i : Nat)
    (hi : i < 8) (hb : spriteBit row i = 1) :
    (drawRow x y j row acc).1.buffer (tgtIdx x y j i) =
      if acc.1.get_pixel ((x + i) % 64) ((y + j) % 32) then 0 else 1 :=
  foldBits_target _ (fun _ ha => List.mem_range.mp ha) (List.nodup_range 8) acc i
    (List.mem_range.mpr hi) hb

lemma drawRow_coll {x y j row : Nat} (acc : Screen × Bool) :
    (drawRow x y j row acc).2 = true ↔
      (acc.2 = true ∨ ∃ i, i < 8 ∧ spriteBit row i = 1 ∧
        acc.1.get_pixel ((x + i) % 64) ((y + j) % 32) = true) := by
  unfold drawRow
  rw [foldBits_coll _ (fun _ ha => List.mem_range.mp ha) (List.nodup_range 8) acc]
  constructor
  · rintro (hc | ⟨i, hir, hbi, hpi⟩)
    · exact Or.inl hc
    · exact Or.inr ⟨i, List.mem_range.mp hir, hbi, hpi⟩
  · rintro (hc | ⟨i, hi8, hbi, hpi⟩)
    · exact Or.inl hc
    · exact Or.inr ⟨i, List.mem_range.mpr hi8, hbi, hpi⟩

/-! ### Outer-loop characterisation of `Screen.draw_sprite` -/

lemma drawRows_preserve {x y : Nat} :
    ∀ (rows : List Nat) (j0 : Nat) (acc : Screen × Bool) (p : Nat),
    (∀ jr, jr < rows.length → ∀ i, i < 8 → spriteBit (rows.getD jr 0) i = 1 →
      tgtIdx x y (j0 + jr) i ≠ p) →
    (drawRows x y j0 rows acc).1.buffer p = acc.1.buffer p := by
  intro rows
  induction rows with
  | nil => intro j0 acc p _; rfl
  | cons row rest ih =>
    intro j0 acc p h
    show (drawRows x y (j0 + 1) rest (drawRow x y j0 row acc)).1.buffer p = _
    rw [ih (j0 + 1) _ p (fun jr hjr i hi hb => by
      have hh := h (jr + 1) (by simpa using Nat.succ_lt_succ hjr) i hi (by simpa using hb)
      have hadd : j0 + (jr + 1) = j0 + 1 + jr := by omega
      rwa [hadd] at hh)]
    exact drawRow_preserve acc p (fun i hi hb => by
      have hh := h 0 (by simp) i hi (by simpa using hb)
      simpa using hh)

lemma drawRows_target {x y : Nat} :
    ∀ (rows : List Nat) (j0 : Nat) (acc : Screen × Bool) (jr i : Nat),
    rows.length ≤ 32 → jr < rows.length → i < 8 →
    spriteBit (rows.getD jr 0) i = 1 →
    (drawRows x y j0 rows acc).1.buffer (tgtIdx x y (j0 + jr) i) =
      if acc.1.get_pixel ((x + i) % 64) ((y + (j0 + jr)) % 32) then 0 else 1 := by
  intro rows
  induction rows with
  | nil => intro j0 acc jr i _ hjr; exact absurd hjr (by simp)
  | cons row rest ih =>
    intro j0 acc jr i hlen hjr hi hb
    have hrest31 : rest.length ≤ 31 := by
      simp only [List.length_cons] at hlen
      omega
    show (drawRows x y (j0 + 1) rest (drawRow x y j0 row acc)).1.buffer _ = _
    cases jr with
    | zero =>
      rw [drawRows_preserve rest (j0 + 1) _ _ (fun jr' hjr' i' hi' hb' heq => by
        have hy := (tgtIdx_eq_iff.mp heq).2
        exact ymod_ne (show j0 + 0 < j0 + 1 + jr' by omega) (by omega) hy.symm)]
      simp only [Nat.add_zero]
      have hbrow : spriteBit row i = 1 := by simpa using hb
      exact drawRow_target acc i hi hbrow
    | succ jr' =>
      have hjr'' : jr' < rest.length := by
        simp only [List.length_cons] at hjr
        omega
      have hb' : spriteBit (rest.getD jr' 0) i = 1 := by simpa using hb
      have hadd : j0 + (jr' + 1) = j0 + 1 + jr' := by omega
      rw [hadd, ih (j0 + 1) _ jr' i (by omega) hjr'' hi hb']
      have hpp : (drawRow x y j0 row acc).1.get_pixel ((x + i) % 64)
            ((y + (j0 + 1 + jr')) % 32) =
          acc.1.get_pixel ((x + i) % 64) ((y + (j0 + 1 + jr')) % 32) := by
        refine drawRow_pixel_preserve acc _ _ (fun a ha hba heq => ?_)
        have hy : (y + j0) % 32 = (y + (j0 + 1 + jr')) % 32 := by
          unfold tgtIdx at heq
          omega
        exact ymod_ne (show j0 < j0 + 1 + jr' by omega) (by omega) hy
      rw [hpp]

lemma drawRows_coll {x y : Nat} :
    ∀ (rows : List Nat) (j0 : Nat) (acc : Screen × Bool),
    rows.length ≤ 32 →
    ((drawRows x y j0 rows acc).2 = true ↔
      (acc.2 = true ∨ ∃ jr, jr < rows.length ∧ ∃ i, i < 8 ∧
        spriteBit (rows.getD jr 0) i = 1 ∧
        acc.1.get_pixel ((x + i) % 64) ((y + (j0 + jr)) % 32) = true)) := by
  intro rows
  induction rows with
  | nil => intro j0 acc _; simp [drawRows]
  | cons row rest ih =>
    intro j0 acc hlen
    have hrest31 : rest.length ≤ 31 := by
      simp only [List.length_cons] at hlen
      omega
    have hpp : ∀ jr i, jr < rest.length → i < 8 →
        (drawRow x y j0 row acc).1.get_pixel ((x + i) % 64) ((y + (j0 + 1 + jr)) % 32) =
          acc.1.get_pixel ((x + i) % 64) ((y + (j0 + 1 + jr)) % 32) := by
      intro jr i hjr hi
      refine drawRow_pixel_preserve acc _ _ (fun a ha hba heq => ?_)
      have hy : (y + j0) % 32 = (y + (j0 + 1 + jr)) % 32 := by
        unfold tgtIdx at heq
        omega
      exact ymod_ne (show j0 < j0 + 1 + jr by omega) (by omega) hy
    show (drawRows x y (j0 + 1) rest (drawRow x y j0 row acc)).2 = true ↔ _
    rw [ih (j0 + 1) _ (by omega), drawRow_coll acc]
    constructor
    · rintro ((hc | ⟨i, hi8, hbi, hpi⟩) | ⟨jr, hjr, i, hi8, hbi, hpi⟩)
      · exact Or.inl hc
      · exact Or.inr ⟨0, by simp, i, hi8, by simpa using hbi, by simpa using hpi⟩
      · refine Or.inr ⟨jr + 1, by simp only [List.length_cons]; omega, i, hi8,
          by simpa using hbi, ?_⟩
        have hadd : j0 + (jr + 1) = j0 + 1 + jr := by omega
        rw [hadd, ← hpp jr i hjr hi8]
        exact hpi
    · rintro (hc | ⟨jr, hjr, i, hi8, hbi, hpi⟩)
      · exact Or.inl (Or.inl hc)
      · cases jr with
        | zero =>
          exact Or.inl (Or.inr ⟨i, hi8, by simpa using hbi, by simpa using hpi⟩)
        | succ jr' =>
          have hjr'' : jr' < rest.length := by
            simp only [List.length_cons] at hjr
            omega
          refine Or.inr ⟨jr', hjr'', i, hi8, by simpa using hbi, ?_⟩
          rw [hpp jr' i hjr'' hi8]
          have hadd : j0 + (jr' + 1) = j0 + 1 + jr' := by omega
          rw [← hadd]
          exact hpi

/-! ### Claim theorems about `Screen.draw_sprite` -/

/-- C4: for every screen state, position (x, y) and sprite byte sequence (of
the lengths the interpreter can pass, at most 32 rows), `draw_sprite` returns
`true` if and only if at least one destination pixel was 1 before compositing
and is 0 after the XOR; a pixel going 0 to 1 never by itself causes a `true`
result. -/
theorem C4_draw_sprite_collision_iff (s : Screen) (x y : Nat) (sprite : List Nat)
    (h : sprite.length ≤ 32) :
    ((s.draw_sprite x y sprite).2 = true ↔
      ∃ px py, px < 64 ∧ py < 32 ∧ s.get_pixel px py = true ∧
        (s.draw_sprite x y sprite).1.get_pixel px py = false) := by
  unfold Screen.draw_sprite
  rw [drawRows_coll sprite 0 (s, false) h]
  constructor
  · rintro (hf | ⟨jr, hjr, i, hi8, hbi, hpi⟩)
    · simp at hf
    · refine ⟨(x + i) % 64, (y + (0 + jr)) % 32, by omega, by omega, hpi, ?_⟩
      have htg := @drawRows_target x y sprite 0 (s, false) jr i h hjr hi8 hbi
      rw [Screen.get_pixel_eq]
      have hidx : (x + i) % 64 + ((y + (0 + jr)) % 32) * 64 = tgtIdx x y (0 + jr) i := rfl
      rw [hidx, htg, hpi]
      simp
  · rintro ⟨px, py, hpx, hpy, hold, hnew⟩
    by_cases htgt : ∃ jr, jr < sprite.length ∧ ∃ i, i < 8 ∧
        spriteBit (sprite.getD jr 0) i = 1 ∧ tgtIdx x y (0 + jr) i = px + py * 64
    · obtain ⟨jr, hjr, i, hi8, hbi, hidx⟩ := htgt
      refine Or.inr ⟨jr, hjr, i, hi8, hbi, ?_⟩
      have hc : (x + i) % 64 = px ∧ (y + (0 + jr)) % 32 = py := by
        unfold tgtIdx at hidx
        omega
      rw [hc.1, hc.2]
      exact hold
    · exfalso
      push_neg at htgt
      have hpres := @drawRows_preserve x y sprite 0 (s, false) (px + py * 64)
        (fun jr hjr i hi8 hbi => htgt jr hjr i hi8 hbi)
      rw [Screen.get_pixel_eq] at hnew hold
      rw [hpres] at hnew
      have hcontr : decide (s.buffer (px + py * 64) = 1) = false := hnew
      rw [hold] at hcontr
      simp at hcontr

/-- C5: rows of a sprite are processed in order, bits MSB first; each set
sprite bit (row j, bit i) is XORed into the pixel at
`((x+i) mod 64, (y+j) mod 32)` — coordinates wrap around both screen edges —
and pixels that are not the target of any set bit are unchanged.  Stated for
the sprite lengths the interpreter can pass (at most 32 rows). -/
theorem C5_draw_sprite_xor_wraparound (s : Screen) (x y : Nat) (sprite : List Nat)
    (h : sprite.length ≤ 32) :
    (∀ j, j < sprite.length → ∀ i, i < 8 →
      (s.draw_sprite x y sprite).1.get_pixel ((x + i) % 64) ((y + j) % 32) =
        xor (decide (sprite.getD j 0 / 2 ^ (7 - i) % 2 = 1))
          (s.get_pixel ((x + i) % 64) ((y + j) % 32))) ∧
    (∀ px py, px < 64 → py < 32 →
      (∀ j, j < sprite.length → ∀ i, i < 8 → sprite.getD j 0 / 2 ^ (7 - i) % 2 = 1 →
        ¬(px = (x + i) % 64 ∧ py = (y + j) % 32)) →
      (s.draw_sprite x y sprite).1.get_pixel px py = s.get_pixel px py) := by
  unfold Screen.draw_sprite
  constructor
  · intro j hj i hi
    by_cases hb : spriteBit (sprite.getD j 0) i = 1
    · have htg := @drawRows_target x y sprite 0 (s, false) j i h hj hi hb
      rw [Screen.get_pixel_eq]
      have hidx : (x + i) % 64 + ((y + j) % 32) * 64 = tgtIdx x y (0 + j) i := by
        unfold tgtIdx
        omega
      rw [hidx, htg]
      have hb' : decide (sprite.getD j 0 / 2 ^ (7 - i) % 2 = 1) = true := by
        unfold spriteBit at hb
        exact decide_eq_true hb
      rw [hb']
      have hcoord : (y + (0 + j)) % 32 = (y + j) % 32 := by omega
      rw [hcoord]
      by_cases hold : s.get_pixel ((x + i) % 64) ((y + j) % 32) = true
      · have hppix : (s, false).1.get_pixel ((x + i) % 64) ((y + j) % 32) = true := hold
        rw [hppix]
        simp
      · have hold' : s.get_pixel ((x + i) % 64) ((y + j) % 32) = false := by
          simpa using hold
        have hppix : (s, false).1.get_pixel ((x + i) % 64) ((y + j) % 32) = false := hold'
        rw [hppix]
        simp
    · have hb' : decide (sprite.getD j 0 / 2 ^ (7 - i) % 2 = 1) = false := by
        unfold spriteBit at hb
        simpa using hb
      rw [hb']
      have hpres := @drawRows_preserve x y sprite 0 (s, false)
          ((x + i) % 64 + ((y + j) % 32) * 64)
          (fun jr hjr i' hi' hbi heq => by
        have hcomp : (x + i') % 64 = (x + i) % 64 ∧ (y + (0 + jr)) % 32 = (y + j) % 32 := by
          unfold tgtIdx at heq
          omega
        have hii : i' = i := xmod_inj hi' hi hcomp.1
        have hjj : jr = j := by
          have := hcomp.2
          omega
        rw [hii, hjj] at hbi
        exact hb hbi)
      rw [Screen.get_pixel_eq, Screen.get_pixel_eq, hpres]
      simp
  · intro px py hpx hpy hno
    have hpres := @drawRows_preserve x y sprite 0 (s, false) (px + py * 64)
      (fun jr hjr i hi8 hbi heq => by
        have hcomp : (x + i) % 64 = px ∧ (y + (0 + jr)) % 32 = py := by
          unfold tgtIdx at heq
          omega
        have hcoord : (y + (0 + jr)) % 32 = (y + jr) % 32 := by omega
        exact hno jr hjr i hi8 hbi ⟨hcomp.1.symm, by rw [← hcomp.2, hcoord]⟩)
    rw [Screen.get_pixel_eq, Screen.get_pixel_eq, hpres]

/-- C4 witness: a sprite bit hitting the already-set pixel (3, 0) reports a
collision. -/
theorem C4_draw_sprite_collision_iff_witness :
    ((Screen.default.set_pixel 3 0 true).draw_sprite 0 0 [0x10]).2 = true :=
  (C4_draw_sprite_collision_iff (Screen.default.set_pixel 3 0 true) 0 0 [0x10]
    (by decide)).mpr ⟨3, 0, by decide, by decide, by decide, by decide⟩

/-- C5 witness: the last bit of an 8-wide one-row sprite drawn at x = 60 lands
wrapped at column (60+7) mod 64 = 3. -/
theorem C5_draw_sprite_xor_wraparound_witness :
    (Screen.default.draw_sprite 60 0 [0xFF]).1.get_pixel ((60 + 7) % 64) ((0 + 0) % 32) =
      xor (decide (([0xFF] : List Nat).getD 0 0 / 2 ^ (7 - 7) % 2 = 1))
        (Screen.default.get_pixel ((60 + 7) % 64) ((0 + 0) % 32)) :=
  (C5_draw_sprite_xor_wraparound Screen.default 60 0 [0xFF] (by decide)).1
    0 (by decide) 7 (by decide)

/-! ### Timer loop unfolding lemmas -/

lemma timerLoop_step (t : ℚ) (d : Nat) (h : TIMER_PERIOD < t) (hd : d ≠ 0) :
    timerLoop t d = timerLoop (t - TIMER_PERIOD) (d - 1) := by
  rw [timerLoop]
  simp [h, hd]

lemma timerLoop_underflow (t : ℚ) (h : TIMER_PERIOD < t) :
    timerLoop t 0 = none := by
  rw [timerLoop]
  simp [h]

lemma timerLoop_done (t : ℚ) (d : Nat) (h : ¬TIMER_PERIOD < t) :
    timerLoop t d = some (t, d) := by
  rw [timerLoop]
  simp [h]

/-- C3: the catch-up loop of `update_timer` re-checks only
`total_dt > TIMER_PERIOD`, never `delay > 0`, so a large enough `dt` drives the
8-bit `delay` below zero: with `delay = 1` and `dt = 1` second, the second loop
iteration executes `delay -= 1` on `delay = 0`, which underflows the `u8`
(the `none` branch; a panic in a Rust debug build, a wrap to 255 in release).
This refutes the claim that `delay` is decremented by at most its current
value. -/
theorem C3_update_timer_underflow :
    ({ Emulator.new with delay := 1, total_dt := 0 }).update_timer 1 = none := by
  show Emulator.update_timer _ 1 = none
  unfold Emulator.update_timer
  simp only [show (0 : ℚ) + 1 = 1 from by norm_num]
  rw [timerLoop_step 1 1 (by norm_num [TIMER_PERIOD]) (by norm_num)]
  rw [show (1 : ℚ) - TIMER_PERIOD = 59 / 60 from by norm_num [TIMER_PERIOD]]
  rw [timerLoop_underflow (59 / 60) (by norm_num [TIMER_PERIOD])]
  simp

/-! ### Claim theorems about instruction dispatch -/

/-- C1 (code bug): a word matching `Fx65` is dispatched to the default no-op
branch — the dispatch arm for the register-load carries the (nonexistent)
pattern `Fx56` instead.  Executing `F365` from a fresh ROM only advances `pc`
by 2: `V0..V3` all stay 0 and `I` stays 0 even though `memory[0..4)` holds the
nonzero font bytes `F0 90 90 90`; the same state with word `F356` performs
exactly the load and `I += x+1` that the spec (and the code's own comment)
ascribe to `Fx65`. -/
theorem C1_fx65_dispatches_to_noop :
    (((Emulator.new.load_rom [0xF3, 0x65]).execute_instruction 0).map
      (fun e2 => (e2.pc, e2.ri, e2.rs 0, e2.rs 1, e2.rs 2, e2.rs 3)) =
        some (0x202, 0, 0, 0, 0, 0)) ∧
    (((Emulator.new.load_rom [0xF3, 0x56]).execute_instruction 0).map
      (fun e2 => (e2.pc, e2.ri, e2.rs 0, e2.rs 1, e2.rs 2, e2.rs 3)) =
        some (0x202, 4, 0xF0, 0x90, 0x90, 0x90)) := by
  refine ⟨?_, ?_⟩ <;> decide

/-- concrete state for the `Fx55`/`Fx65` round-trip claim: ROM
`F355 F365`, `I = 0x300`, `V0..V3 = 10, 20, 30, 40`. -/
def roundTripState : Emulator :=
  { Emulator.new.load_rom [0xF3, 0x55, 0xF3, 0x65] with
    ri := 0x300
    rs := fun k => if k = 0 then 10 else if k = 1 then 20 else if k = 2 then 30
      else if k = 3 then 40 else 0 }

/-- C2 (code bug): executing `F355` does store `V0..V3` to `memory[I..]` and
advances `I` by `x+1` (`0x300` to `0x304`), but the subsequent `F365` — with
`I` reset to `0x300` — is dispatched as a no-op (see `Fx56` bug): the register
values survive only trivially and `I` stays `0x300` instead of advancing by
`x+1` again, refuting "`I` advances by `x+1` after each of the two
operations". -/
theorem C2_roundtrip_broken :
    (((roundTripState.execute_instruction 0).map
      (fun e1 => (e1.ri, e1.memory 0x300, e1.memory 0x301, e1.memory 0x302, e1.memory 0x303))) =
        some (0x304, 10, 20, 30, 40)) ∧
    ((roundTripState.execute_instruction 0).bind
      (fun e1 : Emulator => (({ e1 with ri := 0x300 }).execute_instruction 0).map
        (fun e2 : Emulator => (e2.ri, e2.rs 0, e2.rs 1, e2.rs 2, e2.rs 3))) =
      some (0x300, 10, 20, 30, 40)) ∧
    (0x300 : Nat) ≠ 0x300 + 3 + 1 := by
  decide

/-- C9 counterexample: the RAM buffer has `MEMORY_SIZE = 65535` bytes, not
65536, so address `0xFFFF` is out of bounds. -/
theorem C9_memory_65536_refuted :
    readMem Emulator.new.memory 0xFFFF = none ∧ MEMORY_SIZE ≠ 65536 := by
  decide

/-- C9 amended: after `Emulator.new` (and any `load_rom`) the buffer consists
of exactly `MEMORY_SIZE = 65535` bytes: every address `0x0000..0xFFFE` is in
bounds, and `0xFFFF` is not. -/
theorem C9_memory_size_is_65535 :
    MEMORY_SIZE = 65535 ∧
    (∀ a, a < 65535 → (readMem Emulator.new.memory a).isSome = true) ∧
    (∀ contents : List Nat, ∀ a, a < 65535 →
      (readMem (Emulator.new.load_rom contents).memory a).isSome = true) ∧
    readMem Emulator.new.memory 0xFFFF = none := by
  refine ⟨rfl, fun a ha => ?_, fun contents a ha => ?_, by decide⟩ <;>
    simp [readMem, MEMORY_SIZE, ha]

/-- C9 witness: address 0 is in bounds. -/
theorem C9_memory_size_is_65535_witness :
    (readMem Emulator.new.memory 0).isSome = true :=
  C9_memory_size_is_65535.2.1 0 (by decide)

/-- concrete state for the `VF` overwrite counterexample: opcode `8F04` with
`VF = 5`, `V0 = 10`. -/
def vfOverwriteState : Emulator :=
  { Emulator.new.load_rom [0x8F, 0x04] with
    rs := fun k => if k = 0xF then 5 else if k = 0 then 10 else 0 }

/-- C6 counterexample: with `x = 0xF` the claimed flag semantics fail: opcode
`8F04` on `VF = 5`, `V0 = 10` (no 8-bit overflow, so the claim requires
`VF = 0`) leaves `VF = 15`, because the result write `Vx = res` lands on `VF`
after the flag write. -/
theorem C6_flag_overwritten_when_x_is_F :
    ((vfOverwriteState.execute_instruction 0).map (fun e2 : Emulator => e2.rs 0xF) =
      some 15) ∧ (15 : Nat) ≠ 0 := by
  refine ⟨?_, ?_⟩ <;> decide

/-- C6 amended: for every pair of register indices with `x ≠ 0xF` and every
state, opcode `8xy4` sets `Vx` to `(Vx+Vy) mod 256` and `VF` to 1 exactly when
the 8-bit addition overflows; `8xy5` sets `Vx` to `(Vx-Vy) mod 256` and `VF`
to 1 exactly when no borrow occurs; `8xy7` sets `Vx` to `(Vy-Vx) mod 256` and
`VF` to 1 exactly when no borrow occurs.  (For `x = 0xF` the result write
overwrites the flag — see the counterexample.) -/
theorem C6_alu_flag_semantics (e : Emulator) (rand x y : Nat)
    (hx : x < 16) (hy : y < 16) (hxF : x ≠ 15)
    (hpc : e.pc + 1 < MEMORY_SIZE) :
    (e.memory e.pc % 256 = 128 + x → e.memory (e.pc + 1) % 256 = 16 * y + 4 →
      (e.execute_instruction rand).map (fun e2 : Emulator => (e2.rs x, e2.rs 0xF)) =
        some ((getR e.rs x + getR e.rs y) % 256,
          if 256 ≤ getR e.rs x + getR e.rs y then 1 else 0)) ∧
    (e.memory e.pc % 256 = 128 + x → e.memory (e.pc + 1) % 256 = 16 * y + 5 →
      (e.execute_instruction rand).map (fun e2 : Emulator => (e2.rs x, e2.rs 0xF)) =
        some ((((getR e.rs x : ℤ) - getR e.rs y) % 256).toNat,
          if getR e.rs y ≤ getR e.rs x then 1 else 0)) ∧
    (e.memory e.pc % 256 = 128 + x → e.memory (e.pc + 1) % 256 = 16 * y + 7 →
      (e.execute_instruction rand).map (fun e2 : Emulator => (e2.rs x, e2.rs 0xF)) =
        some ((((getR e.rs y : ℤ) - getR e.rs x) % 256).toNat,
          if getR e.rs x ≤ getR e.rs y then 1 else 0)) := by
  have h15x : (15 : Nat) ≠ x := fun hh => hxF hh.symm
  have hgx : getR e.rs x < 256 := Nat.mod_lt _ (by norm_num)
  have hgy : getR e.rs y < 256 := Nat.mod_lt _ (by norm_num)
  refine ⟨fun h1 h2 => ?_, fun h1 h2 => ?_, fun h1 h2 => ?_⟩
  · have hr1 : readMem e.memory e.pc = some (128 + x) := by
      unfold readMem
      rw [if_pos (show e.pc < MEMORY_SIZE by omega), h1]
    have hr2 : readMem e.memory (e.pc + 1) = some (16 * y + 4) := by
      unfold readMem
      rw [if_pos hpc, h2]
    unfold Emulator.execute_instruction
    rw [hr1, hr2]
    have f1 : ((128 + x) * 256 + (16 * y + 4)) / 4096 % 16 = 8 := by omega
    have f2 : ((128 + x) * 256 + (16 * y + 4)) / 256 % 16 = x := by omega
    have f3 : ((128 + x) * 256 + (16 * y + 4)) / 16 % 16 = y := by omega
    have f4 : ((128 + x) * 256 + (16 * y + 4)) % 16 = 4 := by omega
    simp only [f1, f2, f3, f4]
    norm_num [setR, h15x]
  · have hr1 : readMem e.memory e.pc = some (128 + x) := by
      unfold readMem
      rw [if_pos (show e.pc < MEMORY_SIZE by omega), h1]
    have hr2 : readMem e.memory (e.pc + 1) = some (16 * y + 5) := by
      unfold readMem
      rw [if_pos hpc, h2]
    unfold Emulator.execute_instruction
    rw [hr1, hr2]
    have f1 : ((128 + x) * 256 + (16 * y + 5)) / 4096 % 16 = 8 := by omega
    have f2 : ((128 + x) * 256 + (16 * y + 5)) / 256 % 16 = x := by omega
    have f3 : ((128 + x) * 256 + (16 * y + 5)) / 16 % 16 = y := by omega
    have f4 : ((128 + x) * 256 + (16 * y + 5)) % 16 = 5 := by omega
    simp only [f1, f2, f3, f4]
    norm_num [setR, h15x]
    constructor
    · omega
    · by_cases hb : getR e.rs y ≤ getR e.rs x <;> simp [hb]
  · have hr1 : readMem e.memory e.pc = some (128 + x) := by
      unfold readMem
      rw [if_pos (show e.pc < MEMORY_SIZE by omega), h1]
    have hr2 : readMem e.memory (e.pc + 1) = some (16 * y + 7) := by
      unfold readMem
      rw [if_pos hpc, h2]
    unfold Emulator.execute_instruction
    rw [hr1, hr2]
    have f1 : ((128 + x) * 256 + (16 * y + 7)) / 4096 % 16 = 8 := by omega
    have f2 : ((128 + x) * 256 + (16 * y + 7)) / 256 % 16 = x := by omega
    have f3 : ((128 + x) * 256 + (16 * y + 7)) / 16 % 16 = y := by omega
    have f4 : ((128 + x) * 256 + (16 * y + 7)) % 16 = 7 := by omega
    simp only [f1, f2, f3, f4]
    norm_num [setR, h15x]
    constructor
    · omega
    · by_cases hb : getR e.rs x ≤ getR e.rs y <;> simp [hb]

/-- concrete state for the `8xy4` witness: opcode `8014`, `V0 = 0xFF`,
`V1 = 0x01`. -/
def aluAddState : Emulator :=
  { Emulator.new.load_rom [0x80, 0x14] with
    rs := fun k => if k = 0 then 0xFF else if k = 1 then 0x01 else 0 }

/-- concrete state for the `8xy5` witness: opcode `8015`, `V0 = 0x01`,
`V1 = 0x02`. -/
def aluSubState : Emulator :=
  { Emulator.new.load_rom [0x80, 0x15] with
    rs := fun k => if k = 0 then 0x01 else if k = 1 then 0x02 else 0 }

/-- C6 witness: the spec's two instances hold for `x = 0`, `y = 1`:
`V0=0xFF, V1=0x01` under `8014` yields `V0=0x00, VF=1`, and
`V0=0x01, V1=0x02` under `8015` yields `V0=0xFF, VF=0`. -/
theorem C6_alu_flag_semantics_witness :
    ((aluAddState.execute_instruction 0).map
      (fun e2 : Emulator => (e2.rs 0, e2.rs 0xF)) = some (0x00, 1)) ∧
    ((aluSubState.execute_instruction 0).map
      (fun e2 : Emulator => (e2.rs 0, e2.rs 0xF)) = some (0xFF, 0)) := by
  constructor
  · have h := (C6_alu_flag_semantics aluAddState 0 0 1 (by norm_num) (by norm_num)
      (by norm_num) (by decide)).1 (by decide) (by decide)
    rw [h]
    decide
  · have h := (C6_alu_flag_semantics aluSubState 0 0 1 (by norm_num) (by norm_num)
      (by norm_num) (by decide)).2.1 (by decide) (by decide)
    rw [h]
    decide

/-- C10: the key-skip opcodes `Ex9E` and `ExA1` index the 16-entry keypad
array with the full 8-bit value of `Vx`, with no bounds check or masking: for
every state, if `Vx ≥ 16` the array access is out of bounds (the error branch,
a panic in Rust) rather than a skip or a no-op, and for `Vx ≤ 0xF` the
instruction is well defined. -/
theorem C10_key_skip_indexes_unchecked (e : Emulator) (rand x : Nat)
    (hx : x < 16) (hpc : e.pc + 1 < MEMORY_SIZE)
    (hhi : e.memory e.pc % 256 = 224 + x)
    (hlo : e.memory (e.pc + 1) % 256 = 0x9E ∨ e.memory (e.pc + 1) % 256 = 0xA1) :
    (16 ≤ getR e.rs x → e.execute_instruction rand = none) ∧
    (getR e.rs x < 16 → (e.execute_instruction rand).isSome = true) := by
  have hr1 : readMem e.memory e.pc = some (224 + x) := by
    unfold readMem
    rw [if_pos (show e.pc < MEMORY_SIZE by omega), hhi]
  rcases hlo with hlo | hlo
  · have hr2 : readMem e.memory (e.pc + 1) = some 0x9E := by
      unfold readMem
      rw [if_pos hpc, hlo]
    have f1 : ((224 + x) * 256 + 0x9E) / 4096 % 16 = 14 := by omega
    have f2 : ((224 + x) * 256 + 0x9E) / 256 % 16 = x := by omega
    have f3 : ((224 + x) * 256 + 0x9E) / 16 % 16 = 9 := by omega
    have f4 : ((224 + x) * 256 + 0x9E) % 16 = 14 := by omega
    refine ⟨fun h16 => ?_, fun hlt => ?_⟩
    · unfold Emulator.execute_instruction
      rw [hr1, hr2]
      simp only [f1, f2, f3, f4]
      have hkey : e.keypad.is_pressed (getR e.rs x) = none := by
        unfold Keypad.is_pressed KEY_COUNT
        rw [if_neg (by omega)]
      norm_num [hkey]
    · unfold Emulator.execute_instruction
      rw [hr1, hr2]
      simp only [f1, f2, f3, f4]
      have hkey : e.keypad.is_pressed (getR e.rs x) = some (e.keypad.keys (getR e.rs x)) := by
        unfold Keypad.is_pressed KEY_COUNT
        rw [if_pos hlt]
      norm_num [hkey]
  · have hr2 : readMem e.memory (e.pc + 1) = some 0xA1 := by
      unfold readMem
      rw [if_pos hpc, hlo]
    have f1 : ((224 + x) * 256 + 0xA1) / 4096 % 16 = 14 := by omega
    have f2 : ((224 + x) * 256 + 0xA1) / 256 % 16 = x := by omega
    have f3 : ((224 + x) * 256 + 0xA1) / 16 % 16 = 10 := by omega
    have f4 : ((224 + x) * 256 + 0xA1) % 16 = 1 := by omega
    refine ⟨fun h16 => ?_, fun hlt => ?_⟩
    · unfold Emulator.execute_instruction
      rw [hr1, hr2]
      simp only [f1, f2, f3, f4]
      have hkey : e.keypad.is_pressed (getR e.rs x) = none := by
        unfold Keypad.is_pressed KEY_COUNT
        rw [if_neg (by omega)]
      norm_num [hkey]
    · unfold Emulator.execute_instruction
      rw [hr1, hr2]
      simp only [f1, f2, f3, f4]
      have hkey : e.keypad.is_pressed (getR e.rs x) = some (e.keypad.keys (getR e.rs x)) := by
        unfold Keypad.is_pressed KEY_COUNT
        rw [if_pos hlt]
      norm_num [hkey]

/-- concrete state for the keypad out-of-bounds witness: opcode `E09E` with
`V0 = 255`. -/
def keyOobState : Emulator :=
  { Emulator.new.load_rom [0xE0, 0x9E] with rs := fun _ => 255 }

/-- C10 witness: `E09E` with `V0 = 255` reaches the out-of-bounds branch. -/
theorem C10_key_skip_indexes_unchecked_witness :
    keyOobState.execute_instruction 0 = none :=
  (C10_key_skip_indexes_unchecked keyOobState 0 0 (by norm_num) (by decide)
    (by decide) (Or.inl (by decide))).1 (by decide)

/-! ### Claim theorems about the font region -/

/-- the font region `[0x000, 0x050)` still holds the 16 glyphs written by
`Emulator::new`. -/
def FontIntact (e : Emulator) : Prop :=
  ∀ a, a < 80 → e.memory a = FONT_DATA.getD a 0

/-- C8 counterexample: the program `A000 F033` (set `I = 0`, then store the
BCD of `V0 = 0`) overwrites font byte 0: after two instruction executions
`memory[0] = 0`, no longer the glyph byte `0xF0`. -/
theorem C8_font_overwritten_by_fx33 :
    (((Emulator.new.load_rom [0xA0, 0x00, 0xF0, 0x33]).execute_instruction 0).bind
      (fun e1 : Emulator => (e1.execute_instruction 0).map
        (fun e2 : Emulator => e2.memory 0)) = some 0) ∧
    FONT_DATA.getD 0 0 = 0xF0 ∧ (0 : Nat) ≠ 0xF0 := by
  refine ⟨?_, ?_, ?_⟩ <;> decide

set_option maxHeartbeats 4000000 in
set_option linter.unreachableTactic false in
set_option linter.unusedTactic false in
/-- C8 amended: every single instruction execution preserves the font region
provided `I ≥ 0x50` (in particular every non-store instruction preserves it
unconditionally, and the `Fx33`/`Fx55` stores only write at addresses
`≥ I ≥ 0x50`); the invariant claimed by the spec fails only through
`Fx33`/`Fx55` executed with `I < 0x50` (see the counterexample). -/
theorem C8_font_preserved_of_ri_ge (e e' : Emulator) (rand : Nat)
    (hri : 0x50 ≤ e.ri) (hF : FontIntact e)
    (hstep : e.execute_instruction rand = some e') :
    FontIntact e' := by
  unfold Emulator.execute_instruction at hstep
  dsimp only at hstep
  split at hstep
  case h_2 => exact Option.noConfusion hstep
  rename_i hi lo hq1 hq2
  by_cases c1 : (hi * 256 + lo) / 4096 % 16 = 0 ∧ (hi * 256 + lo) / 256 % 16 = 0 ∧ (hi * 256 + lo) / 16 % 16 = 14 ∧ (hi * 256 + lo) % 16 = 0
  · rw [if_pos c1] at hstep
    repeat' split at hstep
    all_goals
      first
      | exact Option.noConfusion hstep
      | (obtain rfl := Option.some.inj hstep
         intro a ha
         first
         | exact hF a ha
         | (show (if e.ri ≤ a ∧ a < e.ri + (hi * 256 + lo) / 256 % 16 + 1
              then getR e.rs (a - e.ri) else e.memory a) = FONT_DATA.getD a 0
            rw [if_neg (show ¬(e.ri ≤ a ∧ a < e.ri + (hi * 256 + lo) / 256 % 16 + 1) by omega)]
            exact hF a ha)
         | (show (if a = e.ri then getR e.rs ((hi * 256 + lo) / 256 % 16) / 100
              else if a = e.ri + 1 then getR e.rs ((hi * 256 + lo) / 256 % 16) / 10 % 10
              else if a = e.ri + 2 then getR e.rs ((hi * 256 + lo) / 256 % 16) % 10
              else e.memory a) = FONT_DATA.getD a 0
            rw [if_neg (show ¬(a = e.ri) by omega), if_neg (show ¬(a = e.ri + 1) by omega),
              if_neg (show ¬(a = e.ri + 2) by omega)]
            exact hF a ha))
  rw [if_neg c1] at hstep
  by_cases c2 : (hi * 256 + lo) / 4096 % 16 = 0 ∧ (hi * 256 + lo) / 256 % 16 = 0 ∧ (hi * 256 + lo) / 16 % 16 = 14 ∧ (hi * 256 + lo) % 16 = 14
  · rw [if_pos c2] at hstep
    repeat' split at hstep
    all_goals
      first
      | exact Option.noConfusion hstep
      | (obtain rfl := Option.some.inj hstep
         intro a ha
         first
         | exact hF a ha
         | (show (if e.ri ≤ a ∧ a < e.ri + (hi * 256 + lo) / 256 % 16 + 1
              then getR e.rs (a - e.ri) else e.memory a) = FONT_DATA.getD a 0
            rw [if_neg (show ¬(e.ri ≤ a ∧ a < e.ri + (hi * 256 + lo) / 256 % 16 + 1) by omega)]
            exact hF a ha)
         | (show (if a = e.ri then getR e.rs ((hi * 256 + lo) / 256 % 16) / 100
              else if a = e.ri + 1 then getR e.rs ((hi * 256 + lo) / 256 % 16) / 10 % 10
              else if a = e.ri + 2 then getR e.rs ((hi * 256 + lo) / 256 % 16) % 10
              else e.memory a) = FONT_DATA.getD a 0
            rw [if_neg (show ¬(a = e.ri) by omega), if_neg (show ¬(a = e.ri + 1) by omega),
              if_neg (show ¬(a = e.ri + 2) by omega)]
            exact hF a ha))
  rw [if_neg c2] at hstep
  by_cases c3 : (hi * 256 + lo) / 4096 % 16 = 0
  · rw [if_pos c3] at hstep
    repeat' split at hstep
    all_goals
      first
      | exact Option.noConfusion hstep
      | (obtain rfl := Option.some.inj hstep
         intro a ha
         first
         | exact hF a ha
         | (show (if e.ri ≤ a ∧ a < e.ri + (hi * 256 + lo) / 256 % 16 + 1
              then getR e.rs (a - e.ri) else e.memory a) = FONT_DATA.getD a 0
            rw [if_neg (show ¬(e.ri ≤ a ∧ a < e.ri + (hi * 256 + lo) / 256 % 16 + 1) by omega)]
            exact hF a ha)
         | (show (if a = e.ri then getR e.rs ((hi * 256 + lo) / 256 % 16) / 100
              else if a = e.ri + 1 then getR e.rs ((hi * 256 + lo) / 256 % 16) / 10 % 10
              else if a = e.ri + 2 then getR e.rs ((hi * 256 + lo) / 256 % 16) % 10
              else e.memory a) = FONT_DATA.getD a 0
            rw [if_neg (show ¬(a = e.ri) by omega), if_neg (show ¬(a = e.ri + 1) by omega),
              if_neg (show ¬(a = e.ri + 2) by omega)]
            exact hF a ha))
  rw [if_neg c3] at hstep
  by_cases c4 : (hi * 256 + lo) / 4096 % 16 = 1
  · rw [if_pos c4] at hstep
    repeat' split at hstep
    all_goals
      first
      | exact Option.noConfusion hstep
      | (obtain rfl := Option.some.inj hstep
         intro a ha
         first
         | exact hF a ha
         | (show (if e.ri ≤ a ∧ a < e.ri + (hi * 256 + lo) / 256 % 16 + 1
              then getR e.rs (a - e.ri) else e.memory a) = FONT_DATA.getD a 0
            rw [if_neg (show ¬(e.ri ≤ a ∧ a < e.ri + (hi * 256 + lo) / 256 % 16 + 1) by omega)]
            exact hF a ha)
         | (show (if a = e.ri then getR e.rs ((hi * 256 + lo) / 256 % 16) / 100
              else if a = e.ri + 1 then getR e.rs ((hi * 256 + lo) / 256 % 16) / 10 % 10
              else if a = e.ri + 2 then getR e.rs ((hi * 256 + lo) / 256 % 16) % 10
              else e.memory a) = FONT_DATA.getD a 0
            rw [if_neg (show ¬(a = e.ri) by omega), if_neg (show ¬(a = e.ri + 1) by omega),
              if_neg (show ¬(a = e.ri + 2) by omega)]
            exact hF a ha))
  rw [if_neg c4] at hstep
  by_cases c5 : (hi * 256 + lo) / 4096 % 16 = 2
  · rw [if_pos c5] at hstep
    repeat' split at hstep
    all_goals
      first
      | exact Option.noConfusion hstep
      | (obtain rfl := Option.some.inj hstep
         intro a ha
         first
         | exact hF a ha
         | (show (if e.ri ≤ a ∧ a < e.ri + (hi * 256 + lo) / 256 % 16 + 1
              then getR e.rs (a - e.ri) else e.memory a) = FONT_DATA.getD a 0
            rw [if_neg (show ¬(e.ri ≤ a ∧ a < e.ri + (hi * 256 + lo) / 256 % 16 + 1) by omega)]
            exact hF a ha)
         | (show (if a = e.ri then getR e.rs ((hi * 256 + lo) / 256 % 16) / 100
              else if a = e.ri + 1 then getR e.rs ((hi * 256 + lo) / 256 % 16) / 10 % 10
              else if a = e.ri + 2 then getR e.rs ((hi * 256 + lo) / 256 % 16) % 10
              else e.memory a) = FONT_DATA.getD a 0
            rw [if_neg (show ¬(a = e.ri) by omega), if_neg (show ¬(a = e.ri + 1) by omega),
              if_neg (show ¬(a = e.ri + 2) by omega)]
            exact hF a ha))
  rw [if_neg c5] at hstep
  by_cases c6 : (hi * 256 + lo) / 4096 % 16 = 3
  · rw [if_pos c6] at hstep
    repeat' split at hstep
    all_goals
      first
      | exact Option.noConfusion hstep
      | (obtain rfl := Option.some.inj hstep
         intro a ha
         first
         | exact hF a ha
         | (show (if e.ri ≤ a ∧ a < e.ri + (hi * 256 + lo) / 256 % 16 + 1
              then getR e.rs (a - e.ri) else e.memory a) = FONT_DATA.getD a 0
            rw [if_neg (show ¬(e.ri ≤ a ∧ a < e.ri + (hi * 256 + lo) / 256 % 16 + 1) by omega)]
            exact hF a ha)
         | (show (if a = e.ri then getR e.rs ((hi * 256 + lo) / 256 % 16) / 100
              else if a = e.ri + 1 then getR e.rs ((hi * 256 + lo) / 256 % 16) / 10 % 10
              else if a = e.ri + 2 then getR e.rs ((hi * 256 + lo) / 256 % 16) % 10
              else e.memory a) = FONT_DATA.getD a 0
            rw [if_neg (show ¬(a = e.ri) by omega), if_neg (show ¬(a = e.ri + 1) by omega),
              if_neg (show ¬(a = e.ri + 2) by omega)]
            exact hF a ha))
  rw [if_neg c6] at hstep
  by_cases c7 : (hi * 256 + lo) / 4096 % 16 = 4
  · rw [if_pos c7] at hstep
    repeat' split at hstep
    all_goals
      first
      | exact Option.noConfusion hstep
      | (obtain rfl := Option.some.inj hstep
         intro a ha
         first
         | exact hF a ha
         | (show (if e.ri ≤ a ∧ a < e.ri + (hi * 256 + lo) / 256 % 16 + 1
              then getR e.rs (a - e.ri) else e.memory a) = FONT_DATA.getD a 0
            rw [if_neg (show ¬(e.ri ≤ a ∧ a < e.ri + (hi * 256 + lo) / 256 % 16 + 1) by omega)]
            exact hF a ha)
         | (show (if a = e.ri then getR e.rs ((hi * 256 + lo) / 256 % 16) / 100
              else if a = e.ri + 1 then getR e.rs ((hi * 256 + lo) / 256 % 16) / 10 % 10
              else if a = e.ri + 2 then getR e.rs ((hi * 256 + lo) / 256 % 16) % 10
              else e.memory a) = FONT_DATA.getD a 0
            rw [if_neg (show ¬(a = e.ri) by omega), if_neg (show ¬(a = e.ri + 1) by omega),
              if_neg (show ¬(a = e.ri + 2) by omega)]
            exact hF a ha))
  rw [if_neg c7] at hstep
  by_cases c8 : (hi * 256 + lo) / 4096 % 16 = 5 ∧ (hi * 256 + lo) % 16 = 0
  · rw [if_pos c8] at hstep
    repeat' split at hstep
    all_goals
      first
      | exact Option.noConfusion hstep
      | (obtain rfl := Option.some.inj hstep
         intro a ha
         first
         | exact hF a ha
         | (show (if e.ri ≤ a ∧ a < e.ri + (hi * 256 + lo) / 256 % 16 + 1
              then getR e.rs (a - e.ri) else e.memory a) = FONT_DATA.getD a 0
            rw [if_neg (show ¬(e.ri ≤ a ∧ a < e.ri + (hi * 256 + lo) / 256 % 16 + 1) by omega)]
            exact hF a ha)
         | (show (if a = e.ri then getR e.rs ((hi * 256 + lo) / 256 % 16) / 100
              else if a = e.ri + 1 then getR e.rs ((hi * 256 + lo) / 256 % 16) / 10 % 10
              else if a = e.ri + 2 then getR e.rs ((hi * 256 + lo) / 256 % 16) % 10
              else e.memory a) = FONT_DATA.getD a 0
            rw [if_neg (show ¬(a = e.ri) by omega), if_neg (show ¬(a = e.ri + 1) by omega),
              if_neg (show ¬(a = e.ri + 2) by omega)]
            exact hF a ha))
  rw [if_neg c8] at hstep
  by_cases c9 : (hi * 256 + lo) / 4096 % 16 = 6
  · rw [if_pos c9] at hstep
    repeat' split at hstep
    all_goals
      first
      | exact Option.noConfusion hstep
      | (obtain rfl := Option.some.inj hstep
         intro a ha
         first
         | exact hF a ha
         | (show (if e.ri ≤ a ∧ a < e.ri + (hi * 256 + lo) / 256 % 16 + 1
              then getR e.rs (a - e.ri) else e.memory a) = FONT_DATA.getD a 0
            rw [if_neg (show ¬(e.ri ≤ a ∧ a < e.ri + (hi * 256 + lo) / 256 % 16 + 1) by omega)]
            exact hF a ha)
         | (show (if a = e.ri then getR e.rs ((hi * 256 + lo) / 256 % 16) / 100
              else if a = e.ri + 1 then getR e.rs ((hi * 256 + lo) / 256 % 16) / 10 % 10
              else if a = e.ri + 2 then getR e.rs ((hi * 256 + lo) / 256 % 16) % 10
              else e.memory a) = FONT_DATA.getD a 0
            rw [if_neg (show ¬(a = e.ri) by omega), if_neg (show ¬(a = e.ri + 1) by omega),
              if_neg (show ¬(a = e.ri + 2) by omega)]
            exact hF a ha))
  rw [if_neg c9] at hstep
  by_cases c10 : (hi * 256 + lo) / 4096 % 16 = 7
  · rw [if_pos c10] at hstep
    repeat' split at hstep
    all_goals
      first
      | exact Option.noConfusion hstep
      | (obtain rfl := Option.some.inj hstep
         intro a ha
         first
         | exact hF a ha
         | (show (if e.ri ≤ a ∧ a < e.ri + (hi * 256 + lo) / 256 % 16 + 1
              then getR e.rs (a - e.ri) else e.memory a) = FONT_DATA.getD a 0
            rw [if_neg (show ¬(e.ri ≤ a ∧ a < e.ri + (hi * 256 + lo) / 256 % 16 + 1) by omega)]
            exact hF a ha)
         | (show (if a = e.ri then getR e.rs ((hi * 256 + lo) / 256 % 16) / 100
              else if a = e.ri + 1 then getR e.rs ((hi * 256 + lo) / 256 % 16) / 10 % 10
              else if a = e.ri + 2 then getR e.rs ((hi * 256 + lo) / 256 % 16) % 10
              else e.memory a) = FONT_DATA.getD a 0
            rw [if_neg (show ¬(a = e.ri) by omega), if_neg (show ¬(a = e.ri + 1) by omega),
              if_neg (show ¬(a = e.ri + 2) by omega)]
            exact hF a ha))
  rw [if_neg c10] at hstep
  by_cases c11 : (hi * 256 + lo) / 4096 % 16 = 8 ∧ (hi * 256 + lo) % 16 = 0
  · rw [if_pos c11] at hstep
    repeat' split at hstep
    all_goals
      first
      | exact Option.noConfusion hstep
      | (obtain rfl := Option.some.inj hstep
         intro a ha
         first
         | exact hF a ha
         | (show (if e.ri ≤ a ∧ a < e.ri + (hi * 256 + lo) / 256 % 16 + 1
              then getR e.rs (a - e.ri) else e.memory a) = FONT_DATA.getD a 0
            rw [if_neg (show ¬(e.ri ≤ a ∧ a < e.ri + (hi * 256 + lo) / 256 % 16 + 1) by omega)]
            exact hF a ha)
         | (show (if a = e.ri then getR e.rs ((hi * 256 + lo) / 256 % 16) / 100
              else if a = e.ri + 1 then getR e.rs ((hi * 256 + lo) / 256 % 16) / 10 % 10
              else if a = e.ri + 2 then getR e.rs ((hi * 256 + lo) / 256 % 16) % 10
              else e.memory a) = FONT_DATA.getD a 0
            rw [if_neg (show ¬(a = e.ri) by omega), if_neg (show ¬(a = e.ri + 1) by omega),
              if_neg (show ¬(a = e.ri + 2) by omega)]
            exact hF a ha))
  rw [if_neg c11] at hstep
  by_cases c12 : (hi * 256 + lo) / 4096 % 16 = 8 ∧ (hi * 256 + lo) % 16 = 1
  · rw [if_pos c12] at hstep
    repeat' split at hstep
    all_goals
      first
      | exact Option.noConfusion hstep
      | (obtain rfl := Option.some.inj hstep
         intro a ha
         first
         | exact hF a ha
         | (show (if e.ri ≤ a ∧ a < e.ri + (hi * 256 + lo) / 256 % 16 + 1
              then getR e.rs (a - e.ri) else e.memory a) = FONT_DATA.getD a 0
            rw [if_neg (show ¬(e.ri ≤ a ∧ a < e.ri + (hi * 256 + lo) / 256 % 16 + 1) by omega)]
            exact hF a ha)
         | (show (if a = e.ri then getR e.rs ((hi * 256 + lo) / 256 % 16) / 100
              else if a = e.ri + 1 then getR e.rs ((hi * 256 + lo) / 256 % 16) / 10 % 10
              else if a = e.ri + 2 then getR e.rs ((hi * 256 + lo) / 256 % 16) % 10
              else e.memory a) = FONT_DATA.getD a 0
            rw [if_neg (show ¬(a = e.ri) by omega), if_neg (show ¬(a = e.ri + 1) by omega),
              if_neg (show ¬(a = e.ri + 2) by omega)]
            exact hF a ha))
  rw [if_neg c12] at hstep
  by_cases c13 : (hi * 256 + lo) / 4096 % 16 = 8 ∧ (hi * 256 + lo) % 16 = 2
  · rw [if_pos c13] at hstep
    repeat' split at hstep
    all_goals
      first
      | exact Option.noConfusion hstep
      | (obtain rfl := Option.some.inj hstep
         intro a ha
         first
         | exact hF a ha
         | (show (if e.ri ≤ a ∧ a < e.ri + (hi * 256 + lo) / 256 % 16 + 1
              then getR e.rs (a - e.ri) else e.memory a) = FONT_DATA.getD a 0
            rw [if_neg (show ¬(e.ri ≤ a ∧ a < e.ri + (hi * 256 + lo) / 256 % 16 + 1) by omega)]
            exact hF a ha)
         | (show (if a = e.ri then getR e.rs ((hi * 256 + lo) / 256 % 16) / 100
              else if a = e.ri + 1 then getR e.rs ((hi * 256 + lo) / 256 % 16) / 10 % 10
              else if a = e.ri + 2 then getR e.rs ((hi * 256 + lo) / 256 % 16) % 10
              else e.memory a) = FONT_DATA.getD a 0
            rw [if_neg (show ¬(a = e.ri) by omega), if_neg (show ¬(a = e.ri + 1) by omega),
              if_neg (show ¬(a = e.ri + 2) by omega)]
            exact hF a ha))
  rw [if_neg c13] at hstep
  by_cases c14 : (hi * 256 + lo) / 4096 % 16 = 8 ∧ (hi * 256 + lo) % 16 = 3
  · rw [if_pos c14] at hstep
    repeat' split at hstep
    all_goals
      first
      | exact Option.noConfusion hstep
      | (obtain rfl := Option.some.inj hstep
         intro a ha
         first
         | exact hF a ha
         | (show (if e.ri ≤ a ∧ a < e.ri + (hi * 256 + lo) / 256 % 16 + 1
              then getR e.rs (a - e.ri) else e.memory a) = FONT_DATA.getD a 0
            rw [if_neg (show ¬(e.ri ≤ a ∧ a < e.ri + (hi * 256 + lo) / 256 % 16 + 1) by omega)]
            exact hF a ha)
         | (show (if a = e.ri then getR e.rs ((hi * 256 + lo) / 256 % 16) / 100
              else if a = e.ri + 1 then getR e.rs ((hi * 256 + lo) / 256 % 16) / 10 % 10
              else if a = e.ri + 2 then getR e.rs ((hi * 256 + lo) / 256 % 16) % 10
              else e.memory a) = FONT_DATA.getD a 0
            rw [if_neg (show ¬(a = e.ri) by omega), if_neg (show ¬(a = e.ri + 1) by omega),
              if_neg (show ¬(a = e.ri + 2) by omega)]
            exact hF a ha))
  rw [if_neg c14] at hstep
  by_cases c15 : (hi * 256 + lo) / 4096 % 16 = 8 ∧ (hi * 256 + lo) % 16 = 4
  · rw [if_pos c15] at hstep
    repeat' split at hstep
    all_goals
      first
      | exact Option.noConfusion hstep
      | (obtain rfl := Option.some.inj hstep
         intro a ha
         first
         | exact hF a ha
         | (show (if e.ri ≤ a ∧ a < e.ri + (hi * 256 + lo) / 256 % 16 + 1
              then getR e.rs (a - e.ri) else e.memory a) = FONT_DATA.getD a 0
            rw [if_neg (show ¬(e.ri ≤ a ∧ a < e.ri + (hi * 256 + lo) / 256 % 16 + 1) by omega)]
            exact hF a ha)
         | (show (if a = e.ri then getR e.rs ((hi * 256 + lo) / 256 % 16) / 100
              else if a = e.ri + 1 then getR e.rs ((hi * 256 + lo) / 256 % 16) / 10 % 10
              else if a = e.ri + 2 then getR e.rs ((hi * 256 + lo) / 256 % 16) % 10
              else e.memory a) = FONT_DATA.getD a 0
            rw [if_neg (show ¬(a = e.ri) by omega), if_neg (show ¬(a = e.ri + 1) by omega),
              if_neg (show ¬(a = e.ri + 2) by omega)]
            exact hF a ha))
  rw [if_neg c15] at hstep
  by_cases c16 : (hi * 256 + lo) / 4096 % 16 = 8 ∧ (hi * 256 + lo) % 16 = 5
  · rw [if_pos c16] at hstep
    repeat' split at hstep
    all_goals
      first
      | exact Option.noConfusion hstep
      | (obtain rfl := Option.some.inj hstep
         intro a ha
         first
         | exact hF a ha
         | (show (if e.ri ≤ a ∧ a < e.ri + (hi * 256 + lo) / 256 % 16 + 1
              then getR e.rs (a - e.ri) else e.memory a) = FONT_DATA.getD a 0
            rw [if_neg (show ¬(e.ri ≤ a ∧ a < e.ri + (hi * 256 + lo) / 256 % 16 + 1) by omega)]
            exact hF a ha)
         | (show (if a = e.ri then getR e.rs ((hi * 256 + lo) / 256 % 16) / 100
              else if a = e.ri + 1 then getR e.rs ((hi * 256 + lo) / 256 % 16) / 10 % 10
              else if a = e.ri + 2 then getR e.rs ((hi * 256 + lo) / 256 % 16) % 10
              else e.memory a) = FONT_DATA.getD a 0
            rw [if_neg (show ¬(a = e.ri) by omega), if_neg (show ¬(a = e.ri + 1) by omega),
              if_neg (show ¬(a = e.ri + 2) by omega)]
            exact hF a ha))
  rw [if_neg c16] at hstep
  by_cases c17 : (hi * 256 + lo) / 4096 % 16 = 8 ∧ (hi * 256 + lo) % 16 = 6
  · rw [if_pos c17] at hstep
    repeat' split at hstep
    all_goals
      first
      | exact Option.noConfusion hstep
      | (obtain rfl := Option.some.inj hstep
         intro a ha
         first
         | exact hF a ha
         | (show (if e.ri ≤ a ∧ a < e.ri + (hi * 256 + lo) / 256 % 16 + 1
              then getR e.rs (a - e.ri) else e.memory a) = FONT_DATA.getD a 0
            rw [if_neg (show ¬(e.ri ≤ a ∧ a < e.ri + (hi * 256 + lo) / 256 % 16 + 1) by omega)]
            exact hF a ha)
         | (show (if a = e.ri then getR e.rs ((hi * 256 + lo) / 256 % 16) / 100
              else if a = e.ri + 1 then getR e.rs ((hi * 256 + lo) / 256 % 16) / 10 % 10
              else if a = e.ri + 2 then getR e.rs ((hi * 256 + lo) / 256 % 16) % 10
              else e.memory a) = FONT_DATA.getD a 0
            rw [if_neg (show ¬(a = e.ri) by omega), if_neg (show ¬(a = e.ri + 1) by omega),
              if_neg (show ¬(a = e.ri + 2) by omega)]
            exact hF a ha))
  rw [if_neg c17] at hstep
  by_cases c18 : (hi * 256 + lo) / 4096 % 16 = 8 ∧ (hi * 256 + lo) % 16 = 7
  · rw [if_pos c18] at hstep
    repeat' split at hstep
    all_goals
      first
      | exact Option.noConfusion hstep
      | (obtain rfl := Option.some.inj hstep
         intro a ha
         first
         | exact hF a ha
         | (show (if e.ri ≤ a ∧ a < e.ri + (hi * 256 + lo) / 256 % 16 + 1
              then getR e.rs (a - e.ri) else e.memory a) = FONT_DATA.getD a 0
            rw [if_neg (show ¬(e.ri ≤ a ∧ a < e.ri + (hi * 256 + lo) / 256 % 16 + 1) by omega)]
            exact hF a ha)
         | (show (if a = e.ri then getR e.rs ((hi * 256 + lo) / 256 % 16) / 100
              else if a = e.ri + 1 then getR e.rs ((hi * 256 + lo) / 256 % 16) / 10 % 10
              else if a = e.ri + 2 then getR e.rs ((hi * 256 + lo) / 256 % 16) % 10
              else e.memory a) = FONT_DATA.getD a 0
            rw [if_neg (show ¬(a = e.ri) by omega), if_neg (show ¬(a = e.ri + 1) by omega),
              if_neg (show ¬(a = e.ri + 2) by omega)]
            exact hF a ha))
  rw [if_neg c18] at hstep
  by_cases c19 : (hi * 256 + lo) / 4096 % 16 = 8 ∧ (hi * 256 + lo) % 16 = 14
  · rw [if_pos c19] at hstep
    repeat' split at hstep
    all_goals
      first
      | exact Option.noConfusion hstep
      | (obtain rfl := Option.some.inj hstep
         intro a ha
         first
         | exact hF a ha
         | (show (if e.ri ≤ a ∧ a < e.ri + (hi * 256 + lo) / 256 % 16 + 1
              then getR e.rs (a - e.ri) else e.memory a) = FONT_DATA.getD a 0
            rw [if_neg (show ¬(e.ri ≤ a ∧ a < e.ri + (hi * 256 + lo) / 256 % 16 + 1) by omega)]
            exact hF a ha)
         | (show (if a = e.ri then getR e.rs ((hi * 256 + lo) / 256 % 16) / 100
              else if a = e.ri + 1 then getR e.rs ((hi * 256 + lo) / 256 % 16) / 10 % 10
              else if a = e.ri + 2 then getR e.rs ((hi * 256 + lo) / 256 % 16) % 10
              else e.memory a) = FONT_DATA.getD a 0
            rw [if_neg (show ¬(a = e.ri) by omega), if_neg (show ¬(a = e.ri + 1) by omega),
              if_neg (show ¬(a = e.ri + 2) by omega)]
            exact hF a ha))
  rw [if_neg c19] at hstep
  by_cases c20 : (hi * 256 + lo) / 4096 % 16 = 9 ∧ (hi * 256 + lo) % 16 = 0
  · rw [if_pos c20] at hstep
    repeat' split at hstep
    all_goals
      first
      | exact Option.noConfusion hstep
      | (obtain rfl := Option.some.inj hstep
         intro a ha
         first
         | exact hF a ha
         | (show (if e.ri ≤ a ∧ a < e.ri + (hi * 256 + lo) / 256 % 16 + 1
              then getR e.rs (a - e.ri) else e.memory a) = FONT_DATA.getD a 0
            rw [if_neg (show ¬(e.ri ≤ a ∧ a < e.ri + (hi * 256 + lo) / 256 % 16 + 1) by omega)]
            exact hF a ha)
         | (show (if a = e.ri then getR e.rs ((hi * 256 + lo) / 256 % 16) / 100
              else if a = e.ri + 1 then getR e.rs ((hi * 256 + lo) / 256 % 16) / 10 % 10
              else if a = e.ri + 2 then getR e.rs ((hi * 256 + lo) / 256 % 16) % 10
              else e.memory a) = FONT_DATA.getD a 0
            rw [if_neg (show ¬(a = e.ri) by omega), if_neg (show ¬(a = e.ri + 1) by omega),
              if_neg (show ¬(a = e.ri + 2) by omega)]
            exact hF a ha))
  rw [if_neg c20] at hstep
  by_cases c21 : (hi * 256 + lo) / 4096 % 16 = 10
  · rw [if_pos c21] at hstep
    repeat' split at hstep
    all_goals
      first
      | exact Option.noConfusion hstep
      | (obtain rfl := Option.some.inj hstep
         intro a ha
         first
         | exact hF a ha
         | (show (if e.ri ≤ a ∧ a < e.ri + (hi * 256 + lo) / 256 % 16 + 1
              then getR e.rs (a - e.ri) else e.memory a) = FONT_DATA.getD a 0
            rw [if_neg (show ¬(e.ri ≤ a ∧ a < e.ri + (hi * 256 + lo) / 256 % 16 + 1) by omega)]
            exact hF a ha)
         | (show (if a = e.ri then getR e.rs ((hi * 256 + lo) / 256 % 16) / 100
              else if a = e.ri + 1 then getR e.rs ((hi * 256 + lo) / 256 % 16) / 10 % 10
              else if a = e.ri + 2 then getR e.rs ((hi * 256 + lo) / 256 % 16) % 10
              else e.memory a) = FONT_DATA.getD a 0
            rw [if_neg (show ¬(a = e.ri) by omega), if_neg (show ¬(a = e.ri + 1) by omega),
              if_neg (show ¬(a = e.ri + 2) by omega)]
            exact hF a ha))
  rw [if_neg c21] at hstep
  by_cases c22 : (hi * 256 + lo) / 4096 % 16 = 11
  · rw [if_pos c22] at hstep
    repeat' split at hstep
    all_goals
      first
      | exact Option.noConfusion hstep
      | (obtain rfl := Option.some.inj hstep
         intro a ha
         first
         | exact hF a ha
         | (show (if e.ri ≤ a ∧ a < e.ri + (hi * 256 + lo) / 256 % 16 + 1
              then getR e.rs (a - e.ri) else e.memory a) = FONT_DATA.getD a 0
            rw [if_neg (show ¬(e.ri ≤ a ∧ a < e.ri + (hi * 256 + lo) / 256 % 16 + 1) by omega)]
            exact hF a ha)
         | (show (if a = e.ri then getR e.rs ((hi * 256 + lo) / 256 % 16) / 100
              else if a = e.ri + 1 then getR e.rs ((hi * 256 + lo) / 256 % 16) / 10 % 10
              else if a = e.ri + 2 then getR e.rs ((hi * 256 + lo) / 256 % 16) % 10
              else e.memory a) = FONT_DATA.getD a 0
            rw [if_neg (show ¬(a = e.ri) by omega), if_neg (show ¬(a = e.ri + 1) by omega),
              if_neg (show ¬(a = e.ri + 2) by omega)]
            exact hF a ha))
  rw [if_neg c22] at hstep
  by_cases c23 : (hi * 256 + lo) / 4096 % 16 = 12
  · rw [if_pos c23] at hstep
    repeat' split at hstep
    all_goals
      first
      | exact Option.noConfusion hstep
      | (obtain rfl := Option.some.inj hstep
         intro a ha
         first
         | exact hF a ha
         | (show (if e.ri ≤ a ∧ a < e.ri + (hi * 256 + lo) / 256 % 16 + 1
              then getR e.rs (a - e.ri) else e.memory a) = FONT_DATA.getD a 0
            rw [if_neg (show ¬(e.ri ≤ a ∧ a < e.ri + (hi * 256 + lo) / 256 % 16 + 1) by omega)]
            exact hF a ha)
         | (show (if a = e.ri then getR e.rs ((hi * 256 + lo) / 256 % 16) / 100
              else if a = e.ri + 1 then getR e.rs ((hi * 256 + lo) / 256 % 16) / 10 % 10
              else if a = e.ri + 2 then getR e.rs ((hi * 256 + lo) / 256 % 16) % 10
              else e.memory a) = FONT_DATA.getD a 0
            rw [if_neg (show ¬(a = e.ri) by omega), if_neg (show ¬(a = e.ri + 1) by omega),
              if_neg (show ¬(a = e.ri + 2) by omega)]
            exact hF a ha))
  rw [if_neg c23] at hstep
  by_cases c24 : (hi * 256 + lo) / 4096 % 16 = 13
  · rw [if_pos c24] at hstep
    repeat' split at hstep
    all_goals
      first
      | exact Option.noConfusion hstep
      | (obtain rfl := Option.some.inj hstep
         intro a ha
         first
         | exact hF a ha
         | (show (if e.ri ≤ a ∧ a < e.ri + (hi * 256 + lo) / 256 % 16 + 1
              then getR e.rs (a - e.ri) else e.memory a) = FONT_DATA.getD a 0
            rw [if_neg (show ¬(e.ri ≤ a ∧ a < e.ri + (hi * 256 + lo) / 256 % 16 + 1) by omega)]
            exact hF a ha)
         | (show (if a = e.ri then getR e.rs ((hi * 256 + lo) / 256 % 16) / 100
              else if a = e.ri + 1 then getR e.rs ((hi * 256 + lo) / 256 % 16) / 10 % 10
              else if a = e.ri + 2 then getR e.rs ((hi * 256 + lo) / 256 % 16) % 10
              else e.memory a) = FONT_DATA.getD a 0
            rw [if_neg (show ¬(a = e.ri) by omega), if_neg (show ¬(a = e.ri + 1) by omega),
              if_neg (show ¬(a = e.ri + 2) by omega)]
            exact hF a ha))
  rw [if_neg c24] at hstep
  by_cases c25 : (hi * 256 + lo) / 4096 % 16 = 14 ∧ (hi * 256 + lo) / 16 % 16 = 9 ∧ (hi * 256 + lo) % 16 = 14
  · rw [if_pos c25] at hstep
    repeat' split at hstep
    all_goals
      first
      | exact Option.noConfusion hstep
      | (obtain rfl := Option.some.inj hstep
         intro a ha
         first
         | exact hF a ha
         | (show (if e.ri ≤ a ∧ a < e.ri + (hi * 256 + lo) / 256 % 16 + 1
              then getR e.rs (a - e.ri) else e.memory a) = FONT_DATA.getD a 0
            rw [if_neg (show ¬(e.ri ≤ a ∧ a < e.ri + (hi * 256 + lo) / 256 % 16 + 1) by omega)]
            exact hF a ha)
         | (show (if a = e.ri then getR e.rs ((hi * 256 + lo) / 256 % 16) / 100
              else if a = e.ri + 1 then getR e.rs ((hi * 256 + lo) / 256 % 16) / 10 % 10
              else if a = e.ri + 2 then getR e.rs ((hi * 256 + lo) / 256 % 16) % 10
              else e.memory a) = FONT_DATA.getD a 0
            rw [if_neg (show ¬(a = e.ri) by omega), if_neg (show ¬(a = e.ri + 1) by omega),
              if_neg (show ¬(a = e.ri + 2) by omega)]
            exact hF a ha))
  rw [if_neg c25] at hstep
  by_cases c26 : (hi * 256 + lo) / 4096 % 16 = 14 ∧ (hi * 256 + lo) / 16 % 16 = 10 ∧ (hi * 256 + lo) % 16 = 1
  · rw [if_pos c26] at hstep
    repeat' split at hstep
    all_goals
      first
      | exact Option.noConfusion hstep
      | (obtain rfl := Option.some.inj hstep
         intro a ha
         first
         | exact hF a ha
         | (show (if e.ri ≤ a ∧ a < e.ri + (hi * 256 + lo) / 256 % 16 + 1
              then getR e.rs (a - e.ri) else e.memory a) = FONT_DATA.getD a 0
            rw [if_neg (show ¬(e.ri ≤ a ∧ a < e.ri + (hi * 256 + lo) / 256 % 16 + 1) by omega)]
            exact hF a ha)
         | (show (if a = e.ri then getR e.rs ((hi * 256 + lo) / 256 % 16) / 100
              else if a = e.ri + 1 then getR e.rs ((hi * 256 + lo) / 256 % 16) / 10 % 10
              else if a = e.ri + 2 then getR e.rs ((hi * 256 + lo) / 256 % 16) % 10
              else e.memory a) = FONT_DATA.getD a 0
            rw [if_neg (show ¬(a = e.ri) by omega), if_neg (show ¬(a = e.ri + 1) by omega),
              if_neg (show ¬(a = e.ri + 2) by omega)]
            exact hF a ha))
  rw [if_neg c26] at hstep
  by_cases c27 : (hi * 256 + lo) / 4096 % 16 = 15 ∧ (hi * 256 + lo) / 16 % 16 = 0 ∧ (hi * 256 + lo) % 16 = 7
  · rw [if_pos c27] at hstep
    repeat' split at hstep
    all_goals
      first
      | exact Option.noConfusion hstep
      | (obtain rfl := Option.some.inj hstep
         intro a ha
         first
         | exact hF a ha
         | (show (if e.ri ≤ a ∧ a < e.ri + (hi * 256 + lo) / 256 % 16 + 1
              then getR e.rs (a - e.ri) else e.memory a) = FONT_DATA.getD a 0
            rw [if_neg (show ¬(e.ri ≤ a ∧ a < e.ri + (hi * 256 + lo) / 256 % 16 + 1) by omega)]
            exact hF a ha)
         | (show (if a = e.ri then getR e.rs ((hi * 256 + lo) / 256 % 16) / 100
              else if a = e.ri + 1 then getR e.rs ((hi * 256 + lo) / 256 % 16) / 10 % 10
              else if a = e.ri + 2 then getR e.rs ((hi * 256 + lo) / 256 % 16) % 10
              else e.memory a) = FONT_DATA.getD a 0
            rw [if_neg (show ¬(a = e.ri) by omega), if_neg (show ¬(a = e.ri + 1) by omega),
              if_neg (show ¬(a = e.ri + 2) by omega)]
            exact hF a ha))
  rw [if_neg c27] at hstep
  by_cases c28 : (hi * 256 + lo) / 4096 % 16 = 15 ∧ (hi * 256 + lo) / 16 % 16 = 0 ∧ (hi * 256 + lo) % 16 = 10
  · rw [if_pos c28] at hstep
    repeat' split at hstep
    all_goals
      first
      | exact Option.noConfusion hstep
      | (obtain rfl := Option.some.inj hstep
         intro a ha
         first
         | exact hF a ha
         | (show (if e.ri ≤ a ∧ a < e.ri + (hi * 256 + lo) / 256 % 16 + 1
              then getR e.rs (a - e.ri) else e.memory a) = FONT_DATA.getD a 0
            rw [if_neg (show ¬(e.ri ≤ a ∧ a < e.ri + (hi * 256 + lo) / 256 % 16 + 1) by omega)]
            exact hF a ha)
         | (show (if a = e.ri then getR e.rs ((hi * 256 + lo) / 256 % 16) / 100
              else if a = e.ri + 1 then getR e.rs ((hi * 256 + lo) / 256 % 16) / 10 % 10
              else if a = e.ri + 2 then getR e.rs ((hi * 256 + lo) / 256 % 16) % 10
              else e.memory a) = FONT_DATA.getD a 0
            rw [if_neg (show ¬(a = e.ri) by omega), if_neg (show ¬(a = e.ri + 1) by omega),
              if_neg (show ¬(a = e.ri + 2) by omega)]
            exact hF a ha))
  rw [if_neg c28] at hstep
  by_cases c29 : (hi * 256 + lo) / 4096 % 16 = 15 ∧ (hi * 256 + lo) / 16 % 16 = 1 ∧ (hi * 256 + lo) % 16 = 5
  · rw [if_pos c29] at hstep
    repeat' split at hstep
    all_goals
      first
      | exact Option.noConfusion hstep
      | (obtain rfl := Option.some.inj hstep
         intro a ha
         first
         | exact hF a ha
         | (show (if e.ri ≤ a ∧ a < e.ri + (hi * 256 + lo) / 256 % 16 + 1
              then getR e.rs (a - e.ri) else e.memory a) = FONT_DATA.getD a 0
            rw [if_neg (show ¬(e.ri ≤ a ∧ a < e.ri + (hi * 256 + lo) / 256 % 16 + 1) by omega)]
            exact hF a ha)
         | (show (if a = e.ri then getR e.rs ((hi * 256 + lo) / 256 % 16) / 100
              else if a = e.ri + 1 then getR e.rs ((hi * 256 + lo) / 256 % 16) / 10 % 10
              else if a = e.ri + 2 then getR e.rs ((hi * 256 + lo) / 256 % 16) % 10
              else e.memory a) = FONT_DATA.getD a 0
            rw [if_neg (show ¬(a = e.ri) by omega), if_neg (show ¬(a = e.ri + 1) by omega),
              if_neg (show ¬(a = e.ri + 2) by omega)]
            exact hF a ha))
  rw [if_neg c29] at hstep
  by_cases c30 : (hi * 256 + lo) / 4096 % 16 = 15 ∧ (hi * 256 + lo) / 16 % 16 = 1 ∧ (hi * 256 + lo) % 16 = 8
  · rw [if_pos c30] at hstep
    repeat' split at hstep
    all_goals
      first
      | exact Option.noConfusion hstep
      | (obtain rfl := Option.some.inj hstep
         intro a ha
         first
         | exact hF a ha
         | (show (if e.ri ≤ a ∧ a < e.ri + (hi * 256 + lo) / 256 % 16 + 1
              then getR e.rs (a - e.ri) else e.memory a) = FONT_DATA.getD a 0
            rw [if_neg (show ¬(e.ri ≤ a ∧ a < e.ri + (hi * 256 + lo) / 256 % 16 + 1) by omega)]
            exact hF a ha)
         | (show (if a = e.ri then getR e.rs ((hi * 256 + lo) / 256 % 16) / 100
              else if a = e.ri + 1 then getR e.rs ((hi * 256 + lo) / 256 % 16) / 10 % 10
              else if a = e.ri + 2 then getR e.rs ((hi * 256 + lo) / 256 % 16) % 10
              else e.memory a) = FONT_DATA.getD a 0
            rw [if_neg (show ¬(a = e.ri) by omega), if_neg (show ¬(a = e.ri + 1) by omega),
              if_neg (show ¬(a = e.ri + 2) by omega)]
            exact hF a ha))
  rw [if_neg c30] at hstep
  by_cases c31 : (hi * 256 + lo) / 4096 % 16 = 15 ∧ (hi * 256 + lo) / 16 % 16 = 1 ∧ (hi * 256 + lo) % 16 = 14
  · rw [if_pos c31] at hstep
    repeat' split at hstep
    all_goals
      first
      | exact Option.noConfusion hstep
      | (obtain rfl := Option.some.inj hstep
         intro a ha
         first
         | exact hF a ha
         | (show (if e.ri ≤ a ∧ a < e.ri + (hi * 256 + lo) / 256 % 16 + 1
              then getR e.rs (a - e.ri) else e.memory a) = FONT_DATA.getD a 0
            rw [if_neg (show ¬(e.ri ≤ a ∧ a < e.ri + (hi * 256 + lo) / 256 % 16 + 1) by omega)]
            exact hF a ha)
         | (show (if a = e.ri then getR e.rs ((hi * 256 + lo) / 256 % 16) / 100
              else if a = e.ri + 1 then getR e.rs ((hi * 256 + lo) / 256 % 16) / 10 % 10
              else if a = e.ri + 2 then getR e.rs ((hi * 256 + lo) / 256 % 16) % 10
              else e.memory a) = FONT_DATA.getD a 0
            rw [if_neg (show ¬(a = e.ri) by omega), if_neg (show ¬(a = e.ri + 1) by omega),
              if_neg (show ¬(a = e.ri + 2) by omega)]
            exact hF a ha))
  rw [if_neg c31] at hstep
  by_cases c32 : (hi * 256 + lo) / 4096 % 16 = 15 ∧ (hi * 256 + lo) / 16 % 16 = 2 ∧ (hi * 256 + lo) % 16 = 9
  · rw [if_pos c32] at hstep
    repeat' split at hstep
    all_goals
      first
      | exact Option.noConfusion hstep
      | (obtain rfl := Option.some.inj hstep
         intro a ha
         first
         | exact hF a ha
         | (show (if e.ri ≤ a ∧ a < e.ri + (hi * 256 + lo) / 256 % 16 + 1
              then getR e.rs (a - e.ri) else e.memory a) = FONT_DATA.getD a 0
            rw [if_neg (show ¬(e.ri ≤ a ∧ a < e.ri + (hi * 256 + lo) / 256 % 16 + 1) by omega)]
            exact hF a ha)
         | (show (if a = e.ri then getR e.rs ((hi * 256 + lo) / 256 % 16) / 100
              else if a = e.ri + 1 then getR e.rs ((hi * 256 + lo) / 256 % 16) / 10 % 10
              else if a = e.ri + 2 then getR e.rs ((hi * 256 + lo) / 256 % 16) % 10
              else e.memory a) = FONT_DATA.getD a 0
            rw [if_neg (show ¬(a = e.ri) by omega), if_neg (show ¬(a = e.ri + 1) by omega),
              if_neg (show ¬(a = e.ri + 2) by omega)]
            exact hF a ha))
  rw [if_neg c32] at hstep
  by_cases c33 : (hi * 256 + lo) / 4096 % 16 = 15 ∧ (hi * 256 + lo) / 16 % 16 = 3 ∧ (hi * 256 + lo) % 16 = 3
  · rw [if_pos c33] at hstep
    repeat' split at hstep
    all_goals
      first
      | exact Option.noConfusion hstep
      | (obtain rfl := Option.some.inj hstep
         intro a ha
         first
         | exact hF a ha
         | (show (if e.ri ≤ a ∧ a < e.ri + (hi * 256 + lo) / 256 % 16 + 1
              then getR e.rs (a - e.ri) else e.memory a) = FONT_DATA.getD a 0
            rw [if_neg (show ¬(e.ri ≤ a ∧ a < e.ri + (hi * 256 + lo) / 256 % 16 + 1) by omega)]
            exact hF a ha)
         | (show (if a = e.ri then getR e.rs ((hi * 256 + lo) / 256 % 16) / 100
              else if a = e.ri + 1 then getR e.rs ((hi * 256 + lo) / 256 % 16) / 10 % 10
              else if a = e.ri + 2 then getR e.rs ((hi * 256 + lo) / 256 % 16) % 10
              else e.memory a) = FONT_DATA.getD a 0
            rw [if_neg (show ¬(a = e.ri) by omega), if_neg (show ¬(a = e.ri + 1) by omega),
              if_neg (show ¬(a = e.ri + 2) by omega)]
            exact hF a ha))
  rw [if_neg c33] at hstep
  by_cases c34 : (hi * 256 + lo) / 4096 % 16 = 15 ∧ (hi * 256 + lo) / 16 % 16 = 5 ∧ (hi * 256 + lo) % 16 = 5
  · rw [if_pos c34] at hstep
    repeat' split at hstep
    all_goals
      first
      | exact Option.noConfusion hstep
      | (obtain rfl := Option.some.inj hstep
         intro a ha
         first
         | exact hF a ha
         | (show (if e.ri ≤ a ∧ a < e.ri + (hi * 256 + lo) / 256 % 16 + 1
              then getR e.rs (a - e.ri) else e.memory a) = FONT_DATA.getD a 0
            rw [if_neg (show ¬(e.ri ≤ a ∧ a < e.ri + (hi * 256 + lo) / 256 % 16 + 1) by omega)]
            exact hF a ha)
         | (show (if a = e.ri then getR e.rs ((hi * 256 + lo) / 256 % 16) / 100
              else if a = e.ri + 1 then getR e.rs ((hi * 256 + lo) / 256 % 16) / 10 % 10
              else if a = e.ri + 2 then getR e.rs ((hi * 256 + lo) / 256 % 16) % 10
              else e.memory a) = FONT_DATA.getD a 0
            rw [if_neg (show ¬(a = e.ri) by omega), if_neg (show ¬(a = e.ri + 1) by omega),
              if_neg (show ¬(a = e.ri + 2) by omega)]
            exact hF a ha))
  rw [if_neg c34] at hstep
  by_cases c35 : (hi * 256 + lo) / 4096 % 16 = 15 ∧ (hi * 256 + lo) / 16 % 16 = 5 ∧ (hi * 256 + lo) % 16 = 6
  · rw [if_pos c35] at hstep
    repeat' split at hstep
    all_goals
      first
      | exact Option.noConfusion hstep
      | (obtain rfl := Option.some.inj hstep
         intro a ha
         first
         | exact hF a ha
         | (show (if e.ri ≤ a ∧ a < e.ri + (hi * 256 + lo) / 256 % 16 + 1
              then getR e.rs (a - e.ri) else e.memory a) = FONT_DATA.getD a 0
            rw [if_neg (show ¬(e.ri ≤ a ∧ a < e.ri + (hi * 256 + lo) / 256 % 16 + 1) by omega)]
            exact hF a ha)
         | (show (if a = e.ri then getR e.rs ((hi * 256 + lo) / 256 % 16) / 100
              else if a = e.ri + 1 then getR e.rs ((hi * 256 + lo) / 256 % 16) / 10 % 10
              else if a = e.ri + 2 then getR e.rs ((hi * 256 + lo) / 256 % 16) % 10
              else e.memory a) = FONT_DATA.getD a 0
            rw [if_neg (show ¬(a = e.ri) by omega), if_neg (show ¬(a = e.ri + 1) by omega),
              if_neg (show ¬(a = e.ri + 2) by omega)]
            exact hF a ha))
  rw [if_neg c35] at hstep
  repeat' split at hstep
  all_goals
    first
    | exact Option.noConfusion hstep
    | (obtain rfl := Option.some.inj hstep
       intro a ha
       first
       | exact hF a ha
       | (show (if e.ri ≤ a ∧ a < e.ri + (hi * 256 + lo) / 256 % 16 + 1
            then getR e.rs (a - e.ri) else e.memory a) = FONT_DATA.getD a 0
          rw [if_neg (show ¬(e.ri ≤ a ∧ a < e.ri + (hi * 256 + lo) / 256 % 16 + 1) by omega)]
          exact hF a ha)
       | (show (if a = e.ri then getR e.rs ((hi * 256 + lo) / 256 % 16) / 100
            else if a = e.ri + 1 then getR e.rs ((hi * 256 + lo) / 256 % 16) / 10 % 10
            else if a = e.ri + 2 then getR e.rs ((hi * 256 + lo) / 256 % 16) % 10
            else e.memory a) = FONT_DATA.getD a 0
          rw [if_neg (show ¬(a = e.ri) by omega), if_neg (show ¬(a = e.ri + 1) by omega),
            if_neg (show ¬(a = e.ri + 2) by omega)]
          exact hF a ha))

/-- concrete state for the C8 witness: opcode `F555` (store `V0..V5`) with
`I = 0x60`, above the font region. -/
def fontSafeState : Emulator :=
  { Emulator.new.load_rom [0xF5, 0x55] with ri := 0x60 }

/-- C8 witness: executing `F555` with `I = 0x60 ≥ 0x50` preserves the font
region. -/
theorem C8_font_preserved_of_ri_ge_witness :
    (fontSafeState.execute_instruction 0).elim False FontIntact := by
  have hs : (fontSafeState.execute_instruction 0).isSome = true := by decide
  cases hE : fontSafeState.execute_instruction 0 with
  | none => rw [hE] at hs; cases hs
  | some e' =>
    simp only [Option.elim]
    exact C8_font_preserved_of_ri_ge fontSafeState e' 0 (by decide)
      (by unfold FontIntact; decide) hE
